import Mathlib

/-!
Verification of the agent runtime core (agent loop, LLM response
normalization layer, trace validators) of the `agentic` repository.

The Python sources are shallowly embedded: pure functions become Lean
functions, the stateful agent loop becomes explicit state passing with the
turn budget as structural fuel (the loop increments `turn_count` exactly
once per iteration, so `max_turns - turn_count` is a faithful fuel value),
and JSON data is modelled by an explicit `JValue` type.  Python `float`
values never take part in arithmetic in the verified code, so they are
carried by their lexical representation.  Timestamps (`time.time()`) are
modelled as integers; no verified property depends on them.
-/

namespace Agentic

/-- JSON-like values, the shape of everything `json.loads`/`json.dumps` and
pydantic `model_dump(mode="json")` traffic in.  Floats keep their source
lexeme: no embedded code computes with them. -/
inductive JValue where
  | null
  | bool (b : Bool)
  | int (n : Int)
  | float (rep : String)
  | str (s : String)
  | arr (elems : List JValue)
  | obj (fields : List (String × JValue))

/-- Association-list lookup, the model of Python `dict[key]` access.  (The
dicts the embedded code builds and the `dict` objects pydantic hands over
never carry duplicate keys, so first-binding lookup is exact.) -/
def alistLookup : List (String × JValue) → String → Option JValue
  | [], _ => none
  | (k, v) :: rest, key => if k = key then some v else alistLookup rest key

/-! ### Character-level string helpers (Python `str` / `re` fragments) -/

/-- ASCII whitespace, the model of regex `\s` and of `str.strip()` for the
inputs at hand. -/
def isPyWs (c : Char) : Bool :=
  c = ' ' || c = '\t' || c = '\n' || c = '\r' || c = Char.ofNat 11 || c = Char.ofNat 12

def dropWsL : List Char → List Char
  | [] => []
  | c :: rest => if isPyWs c then dropWsL rest else c :: rest

/-- Python `str.strip()`. -/
def pyStrip (s : String) : String :=
  String.mk ((dropWsL (dropWsL s.data).reverse).reverse)

/-- First index at which `pat` occurs in `s`, scanning left to right
(the model of `re.search` for a literal pattern / `str.find`). -/
def subIdxAux (pat : List Char) : List Char → Nat → Option Nat
  | [], i => if pat.isEmpty then some i else none
  | s@(_ :: rest), i => if pat.isPrefixOf s then some i else subIdxAux pat rest (i + 1)

def findSub? (pat s : List Char) : Option Nat := subIdxAux pat s 0

/-- `List.take`/`drop` around the first occurrence of `pat`: returns the
text before the match and the text after the match. -/
def splitFirst? (pat s : List Char) : Option (List Char × List Char) :=
  match findSub? pat s with
  | none => none
  | some i => some (s.take i, s.drop (i + pat.length))

/-- All digits test used by the `int()` model. -/
def allDigits (cs : List Char) : Bool := cs.all (·.isDigit)

def digitsToNat : List Char → Nat → Nat
  | [], acc => acc
  | c :: rest, acc => digitsToNat rest (acc * 10 + (c.toNat - 48))

/-- Python `int(str)`: optional surrounding whitespace, optional sign, then a
nonempty digit run.  (Digit-group underscores, non-ASCII digits and other
exotica accepted by CPython do not occur in the verified traces and are not
modelled.) -/
def pyIntParse (s : String) : Option Int :=
  let cs := (dropWsL ((dropWsL s.data).reverse)).reverse
  match cs with
  | [] => none
  | '-' :: rest => if rest ≠ [] && allDigits rest then some (-(digitsToNat rest 0 : Int)) else none
  | '+' :: rest => if rest ≠ [] && allDigits rest then some ((digitsToNat rest 0 : Int)) else none
  | _ => if allDigits cs then some ((digitsToNat cs 0 : Int)) else none

/-- Python `float(str)` acceptance test for the value-coercion step of the
verbose-XML converter (only consulted for strings containing a dot). -/
def pyFloatAccepts (s : String) : Bool :=
  let cs := (dropWsL ((dropWsL s.data).reverse)).reverse
  let cs := match cs with
    | '-' :: rest => rest
    | '+' :: rest => rest
    | other => other
  let mantOk : Bool :=
    match splitFirst? ['.'] cs with
    | none => cs ≠ [] && allDigits cs
    | some (ip, fp') =>
      -- no exponent handling here: the exponent is split off below
      (ip ≠ [] || fp' ≠ []) && allDigits ip && allDigits fp'
  let expSplit :=
    match splitFirst? ['e'] cs with
    | some r => some r
    | none => splitFirst? ['E'] cs
  match expSplit with
  | none => mantOk
  | some (mant, ex) =>
    let ex := match ex with
      | '-' :: rest => rest
      | '+' :: rest => rest
      | other => other
    let mantOk' :=
      match splitFirst? ['.'] mant with
      | none => mant ≠ [] && allDigits mant
      | some (ip, fp) => (ip ≠ [] || fp ≠ []) && allDigits ip && allDigits fp
    mantOk' && ex ≠ [] && allDigits ex

/-! ### `json.loads` model

A fuel-indexed recursive-descent parser for the JSON grammar as accepted by
Python's `json` module in its default strict mode (plus `NaN`/`Infinity`
lexemes, which Python accepts).  The fuel is only a structural-recursion
device; `json_loads` supplies more fuel than any input can consume. -/

def hexVal? (c : Char) : Option Nat :=
  if c.isDigit then some (c.toNat - 48)
  else if 'a' ≤ c && c ≤ 'f' then some (c.toNat - 97 + 10)
  else if 'A' ≤ c && c ≤ 'F' then some (c.toNat - 65 + 10)
  else none

def hex4? : List Char → Option (Nat × List Char)
  | a :: b :: c :: d :: rest =>
    match hexVal? a, hexVal? b, hexVal? c, hexVal? d with
    | some x, some y, some z, some w => some (((x * 16 + y) * 16 + z) * 16 + w, rest)
    | _, _, _, _ => none
  | _ => none

/-- JSON string body parser (after the opening quote), strict mode: raw
control characters are rejected, escapes are the standard eight plus
`\uXXXX` with surrogate-pair combination. -/
def jparseStrBody : Nat → List Char → Option (List Char × List Char)
  | 0, _ => none
  | _, [] => none
  | fuel + 1, c :: rest =>
    if c = '"' then some ([], rest)
    else if c = '\\' then
      match rest with
      | [] => none
      | e :: rest2 =>
        let simpleEsc : Option Char :=
          if e = '"' then some '"'
          else if e = '\\' then some '\\'
          else if e = '/' then some '/'
          else if e = 'b' then some (Char.ofNat 8)
          else if e = 'f' then some (Char.ofNat 12)
          else if e = 'n' then some '\n'
          else if e = 'r' then some '\r'
          else if e = 't' then some '\t'
          else none
        match simpleEsc with
        | some ch =>
          match jparseStrBody fuel rest2 with
          | some (body, rem) => some (ch :: body, rem)
          | none => none
        | none =>
          if e = 'u' then
            match hex4? rest2 with
            | none => none
            | some (n, rest3) =>
              if 0xD800 ≤ n && n ≤ 0xDBFF then
                -- try to combine a surrogate pair (lone surrogates are mapped
                -- through Char.ofNat's total fallback; they never occur in
                -- the verified inputs)
                match rest3 with
                | '\\' :: 'u' :: rest4 =>
                  match hex4? rest4 with
                  | some (m, rest5) =>
                    if 0xDC00 ≤ m && m ≤ 0xDFFF then
                      let code := 0x10000 + (n - 0xD800) * 0x400 + (m - 0xDC00)
                      match jparseStrBody fuel rest5 with
                      | some (body, rem) => some (Char.ofNat code :: body, rem)
                      | none => none
                    else
                      match jparseStrBody fuel rest3 with
                      | some (body, rem) => some (Char.ofNat n :: body, rem)
                      | none => none
                  | none =>
                    match jparseStrBody fuel rest3 with
                    | some (body, rem) => some (Char.ofNat n :: body, rem)
                    | none => none
                | _ =>
                  match jparseStrBody fuel rest3 with
                  | some (body, rem) => some (Char.ofNat n :: body, rem)
                  | none => none
              else
                match jparseStrBody fuel rest3 with
                | some (body, rem) => some (Char.ofNat n :: body, rem)
                | none => none
          else none
    else if c.toNat < 0x20 then none
    else
      match jparseStrBody fuel rest with
      | some (body, rem) => some (c :: body, rem)
      | none => none


/-- JSON number lexeme: `(-?(0|[1-9]D*))(\.D+)?([eE][+-]?D+)?`.  Returns the
value (`int` when there is no fraction/exponent, `float` lexeme otherwise)
and the remaining input. -/
def jparseNum (cs : List Char) : Option (JValue × List Char) :=
  let (sign, cs1) := match cs with
    | '-' :: rest => (['-'], rest)
    | other => (([] : List Char), other)
  let intPart : Option (List Char × List Char) :=
    match cs1 with
    | '0' :: rest => some (['0'], rest)
    | c :: rest =>
      if c.isDigit then
        let ds := (c :: rest).takeWhile (·.isDigit)
        some (ds, (c :: rest).dropWhile (·.isDigit))
      else none
    | [] => none
  match intPart with
  | none => none
  | some (ip, rest2) =>
    let (fracPart, rest3) : List Char × List Char :=
      match rest2 with
      | '.' :: d :: more =>
        if d.isDigit then
          let ds := (d :: more).takeWhile (·.isDigit)
          ('.' :: ds, (d :: more).dropWhile (·.isDigit))
        else ([], rest2)
      | _ => ([], rest2)
    let (expPart, rest4) : List Char × List Char :=
      match rest3 with
      | e :: more =>
        if e = 'e' || e = 'E' then
          let (es, more2) := match more with
            | s :: m2 => if s = '-' || s = '+' then ([e, s], m2) else ([e], more)
            | [] => ([e], more)
          match more2 with
          | d :: _ =>
            if d.isDigit then
              (es ++ more2.takeWhile (·.isDigit), more2.dropWhile (·.isDigit))
            else ([], rest3)
          | [] => ([], rest3)
        else ([], rest3)
      | [] => ([], rest3)
    if fracPart.isEmpty && expPart.isEmpty then
      let n : Int := (digitsToNat ip 0 : Int)
      some (.int (if sign.isEmpty then n else -n), rest2)
    else
      some (.float (String.mk (sign ++ ip ++ fracPart ++ expPart)), rest4)

mutual

def jparseValF : Nat → List Char → Option (JValue × List Char)
  | 0, _ => none
  | fuel + 1, cs =>
    match dropWsL cs with
    | [] => none
    | c :: rest =>
      if c = 'n' then
        if ['u', 'l', 'l'].isPrefixOf rest then some (.null, rest.drop 3) else none
      else if c = 't' then
        if ['r', 'u', 'e'].isPrefixOf rest then some (.bool true, rest.drop 3) else none
      else if c = 'f' then
        if ['a', 'l', 's', 'e'].isPrefixOf rest then some (.bool false, rest.drop 4) else none
      else if c = '"' then
        match jparseStrBody (rest.length + 1) rest with
        | some (body, rem) => some (.str (String.mk body), rem)
        | none => none
      else if c = '[' then
        match dropWsL rest with
        | ']' :: rem => some (.arr [], rem)
        | _ =>
          match jparseArrItems fuel rest with
          | some (items, rem) => some (.arr items, rem)
          | none => none
      else if c = Char.ofNat 123 then
        match dropWsL rest with
        | r :: rem =>
          if r = Char.ofNat 125 then some (.obj [], rem)
          else
            match jparseObjItems fuel (r :: rem) with
            | some (fields, rem2) => some (.obj fields, rem2)
            | none => none
        | [] => none
      else if c = 'N' then
        if ['a', 'N'].isPrefixOf rest then some (.float "NaN", rest.drop 2) else none
      else if c = 'I' then
        if ['n', 'f', 'i', 'n', 'i', 't', 'y'].isPrefixOf rest then
          some (.float "Infinity", rest.drop 7)
        else none
      else if c = '-' && ['I', 'n', 'f', 'i', 'n', 'i', 't', 'y'].isPrefixOf rest then
        some (.float "-Infinity", rest.drop 8)
      else
        jparseNum (c :: rest)

def jparseArrItems : Nat → List Char → Option (List JValue × List Char)
  | 0, _ => none
  | fuel + 1, cs =>
    match jparseValF fuel cs with
    | none => none
    | some (v, rest) =>
      match dropWsL rest with
      | ',' :: rest2 =>
        match jparseArrItems fuel rest2 with
        | some (items, rem) => some (v :: items, rem)
        | none => none
      | ']' :: rest2 => some ([v], rest2)
      | _ => none

def jparseObjItems : Nat → List Char → Option (List (String × JValue) × List Char)
  | 0, _ => none
  | fuel + 1, cs =>
    match dropWsL cs with
    | '"' :: rest =>
      match jparseStrBody (rest.length + 1) rest with
      | none => none
      | some (keyBody, rest2) =>
        match dropWsL rest2 with
        | ':' :: rest3 =>
          match jparseValF fuel rest3 with
          | none => none
          | some (v, rest4) =>
            match dropWsL rest4 with
            | ',' :: rest5 =>
              match jparseObjItems fuel rest5 with
              | some (fields, rem) => some ((String.mk keyBody, v) :: fields, rem)
              | none => none
            | r :: rest5 =>
              if r = Char.ofNat 125 then some ([(String.mk keyBody, v)], rest5) else none
            | [] => none
        | _ => none
    | _ => none

end

/-- Model of Python `json.loads`: parse one value, then require only
whitespace to remain. -/
def json_loads (s : String) : Option JValue :=
  match jparseValF (s.length + 1) s.data with
  | some (v, rest) => if (dropWsL rest).isEmpty then some v else none
  | none => none


/-! ### `json.dumps` model

Default formatting: item separator `", "`, key separator `": "`,
`ensure_ascii=True`.  Floats are printed by their carried lexeme (see the
module comment). -/

def hexDigitLower (n : Nat) : Char :=
  if n < 10 then Char.ofNat (48 + n) else Char.ofNat (97 + (n - 10))

def uEsc4 (n : Nat) : List Char :=
  ['\\', 'u', hexDigitLower (n / 4096 % 16), hexDigitLower (n / 256 % 16),
   hexDigitLower (n / 16 % 16), hexDigitLower (n % 16)]

def jescChar (c : Char) : List Char :=
  if c = '"' then ['\\', '"']
  else if c = '\\' then ['\\', '\\']
  else if c = '\n' then ['\\', 'n']
  else if c = '\r' then ['\\', 'r']
  else if c = '\t' then ['\\', 't']
  else if c = Char.ofNat 8 then ['\\', 'b']
  else if c = Char.ofNat 12 then ['\\', 'f']
  else if c.toNat < 0x20 then uEsc4 c.toNat
  else if c.toNat < 0x7f then [c]
  else if c.toNat ≤ 0xffff then uEsc4 c.toNat
  else uEsc4 (0xd800 + (c.toNat - 0x10000) / 0x400) ++ uEsc4 (0xdc00 + (c.toNat - 0x10000) % 0x400)

/-- `json.dumps` of a string value. -/
def jstrDump (s : String) : String :=
  String.mk ('"' :: (s.data.map jescChar).flatten ++ ['"'])

/-- `json.dumps` of an arbitrary value (used only on the parsed
`<function_calls>` array, whose exact rendering no verified claim
inspects). -/
def jdump : JValue → String
  | .null => "null"
  | .bool b => if b then "true" else "false"
  | .int n => toString n
  | .float rep => rep
  | .str s => jstrDump s
  | .arr xs => "[" ++ String.intercalate ", " (xs.attach.map (fun x => jdump x.1)) ++ "]"
  | .obj fs => "\x7b" ++ String.intercalate ", "
      (fs.attach.map (fun f => jstrDump f.1.1 ++ ": " ++ jdump f.1.2)) ++ "\x7d"
termination_by v => sizeOf v
decreasing_by
  · have h1 := List.sizeOf_lt_of_mem x.2; simp at h1 ⊢; omega
  · rcases f with ⟨⟨a, b⟩, hf⟩
    have h1 := List.sizeOf_lt_of_mem hf
    simp at h1 ⊢; omega

/-! ### `LLM._convert_xml_tool_call_format` -/

/-- A coerced parameter value of the verbose-XML dialect: `int` if the
stripped text has no dot and parses, `float` if it has a dot and parses,
otherwise the string itself (`contextlib.suppress(ValueError)`). -/
inductive PyVal where
  | int (n : Int)
  | float (rep : String)
  | str (s : String)

def coerceParamValue (v : String) : PyVal :=
  if v.data.contains '.' then
    if pyFloatAccepts v then .float v else .str v
  else
    match pyIntParse v with
    | some n => .int n
    | none => .str v

/-- `re.findall(r"<tool_call>(.*?)</tool_call>", s, DOTALL)`: repeatedly take
the next open tag and the nearest following close tag. -/
def findBlocks (openTag closeTag : List Char) : Nat → List Char → List (List Char)
  | 0, _ => []
  | fuel + 1, s =>
    match splitFirst? openTag s with
    | none => []
    | some (_, afterOpen) =>
      match splitFirst? closeTag afterOpen with
      | none => []
      | some (content, afterClose) => content :: findBlocks openTag closeTag fuel afterClose

/-- `re.search(r"<function=([^>]+)>", block)`: first position where the
literal is followed by a nonempty `>`-free capture and a `>`. -/
def searchCapture (pre : List Char) (stopC : Char) : Nat → List Char → Option (List Char)
  | 0, _ => none
  | fuel + 1, s =>
    match splitFirst? pre s with
    | none => none
    | some (_, after) =>
      let cap := after.takeWhile (fun c => c ≠ stopC)
      match after.dropWhile (fun c => c ≠ stopC) with
      | [] => none
      | _ :: _ => if cap ≠ [] then some cap else searchCapture pre stopC fuel after

/-- `re.findall(r"<parameter=([^>]+)>(.*?)</parameter>", block, DOTALL)`. -/
def findParams : Nat → List Char → List (String × String)
  | 0, _ => []
  | fuel + 1, s =>
    match splitFirst? ("<parameter=".data) s with
    | none => []
    | some (_, after) =>
      let key := after.takeWhile (fun c => c ≠ '>')
      match after.dropWhile (fun c => c ≠ '>') with
      | [] => []
      | _ :: afterKey =>
        if key ≠ [] then
          match splitFirst? ("</parameter>".data) afterKey with
          | some (val, afterClose) =>
            (String.mk key, String.mk val) :: findParams fuel afterClose
          | none => []
        else findParams fuel after

/-- Python dict assignment `args[key] = value`: overwrite in place or append. -/
def dictUpsert (l : List (String × PyVal)) (k : String) (v : PyVal) : List (String × PyVal) :=
  if l.any (fun p => p.1 = k) then l.map (fun p => if p.1 = k then (k, v) else p)
  else l ++ [(k, v)]

def buildArgs : List (String × String) → List (String × PyVal) → List (String × PyVal)
  | [], acc => acc
  | (k, v) :: rest, acc =>
    buildArgs rest (dictUpsert acc (pyStrip k) (coerceParamValue (pyStrip v)))

def parseXmlBlock (block : List Char) : Option (String × List (String × PyVal)) :=
  match searchCapture ("<function=".data) '>' (block.length + 1) block with
  | none => none
  | some cap =>
    some (pyStrip (String.mk cap), buildArgs (findParams (block.length + 1) block) [])

def pyValDump : PyVal → String
  | .int n => toString n
  | .float rep => rep
  | .str s => jstrDump s

def dumpXmlToolCall (tc : String × String × List (String × PyVal)) : String :=
  "\x7b\"id\": " ++ jstrDump tc.1 ++ ", \"tool\": " ++ jstrDump tc.2.1 ++ ", \"args\": \x7b" ++
    String.intercalate ", " (tc.2.2.map (fun p => jstrDump p.1 ++ ": " ++ pyValDump p.2)) ++
    "\x7d\x7d"

/-- `json.dumps` of the fixed-shape dict built by the verbose-XML
converter. -/
def dumpXmlAgentResponse (reasoning : String)
    (tcs : List (String × String × List (String × PyVal))) : String :=
  "\x7b\"reasoning\": " ++ jstrDump reasoning ++ ", \"tool_calls\": [" ++
    String.intercalate ", " (tcs.map dumpXmlToolCall) ++
    "], \"result\": null, \"is_finished\": false\x7d"

def fallbackReasoning : String := "Calling tools to gather information."

/-- `LLM._convert_xml_tool_call_format`. -/
def convert_xml_tool_call_format (response : String) : String :=
  let blocks := findBlocks ("<tool_call>".data) ("</tool_call>".data)
      (response.length + 1) response.data
  if blocks.isEmpty then response
  else
    let reasoningText :=
      match findSub? ("<tool_call>".data) response.data with
      | some i => pyStrip (String.mk (response.data.take i))
      | none => ""
    let reasoningText := if reasoningText = "" then fallbackReasoning else reasoningText
    let converted := blocks.enum.filterMap (fun ib =>
      (parseXmlBlock ib.2).map (fun nb => ("call_" ++ toString (ib.1 + 1), nb.1, nb.2)))
    if converted.isEmpty then response
    else dumpXmlAgentResponse reasoningText converted

/-! ### `LLM._convert_anthropic_format` -/

/-- Lazy `\[.*?\]` followed by `\s*</function_calls>`: scan for the first
closing bracket whose suffix matches, letting earlier brackets join the
group. `accRev` holds the group read so far, reversed. -/
def findCloseBr : Nat → List Char → List Char → Option (List Char)
  | 0, _, _ => none
  | _ + 1, [], _ => none
  | fuel + 1, c :: rest, accRev =>
    if c = ']' && ("</function_calls>".data).isPrefixOf (dropWsL rest) then
      some ((']' :: accRev).reverse)
    else findCloseBr fuel rest (c :: accRev)

/-- `re.search(r"<function_calls>\s*(\[.*?\])\s*</function_calls>", s,
DOTALL)`: leftmost occurrence of the open tag at which the rest of the
pattern can match; returns the match start and the captured bracketed
group. -/
def anthropicMatch : Nat → List Char → Nat → Option (Nat × List Char)
  | 0, _, _ => none
  | fuel + 1, s, base =>
    match findSub? ("<function_calls>".data) s with
    | none => none
    | some i =>
      let afterTag := s.drop (i + 16)
      match dropWsL afterTag with
      | '[' :: inside =>
        match findCloseBr (inside.length + 1) inside ['['] with
        | some grp => some (base + i, grp)
        | none => anthropicMatch fuel (s.drop (i + 1)) (base + i + 1)
      | _ => anthropicMatch fuel (s.drop (i + 1)) (base + i + 1)

def dumpAnthropicResponse (reasoning : String) (tcVal : JValue) : String :=
  "\x7b\"reasoning\": " ++ jstrDump reasoning ++ ", \"tool_calls\": " ++ jdump tcVal ++
    ", \"result\": null, \"is_finished\": false\x7d"

/-- `LLM._convert_anthropic_format`.  `.error ()` is the
`json.JSONDecodeError` that `json.loads` raises on an unparsable captured
array (the exception propagates out of the function). -/
def convert_anthropic_format (response : String) : Except Unit String :=
  match anthropicMatch (response.length + 1) response.data 0 with
  | none => .ok response
  | some (start, grp) =>
    let reasoningText := pyStrip (String.mk (response.data.take start))
    let reasoningText := if reasoningText = "" then fallbackReasoning else reasoningText
    match json_loads (String.mk grp) with
    | none => .error ()
    | some tcVal => .ok (dumpAnthropicResponse reasoningText tcVal)

/-! ### Preamble stripping and fence extraction -/

/-- Case-insensitive literal prefix (`re.IGNORECASE`). -/
def icPrefix? : List Char → List Char → Option (List Char)
  | [], s => some s
  | _ :: _, [] => none
  | l :: ls, c :: cs => if c.toLower = l.toLower then icPrefix? ls cs else none

/-- `\s+`: at least one whitespace character, consumed greedily. -/
def wsPlus? (s : List Char) : Option (List Char) :=
  match s with
  | c :: rest => if isPyWs c then some (dropWsL rest) else none
  | [] => none

/-- `re.sub(r"^\s*LIT\s*", "", s, IGNORECASE)` for a literal `LIT`. -/
def stripSimplePreamble (lit : String) (s : List Char) : List Char :=
  match icPrefix? lit.data (dropWsL s) with
  | some rest => dropWsL rest
  | none => s

def kwAlternatives (s : List Char) : Option (List Char) :=
  match icPrefix? ("json".data) s with
  | some r => some r
  | none =>
    match icPrefix? ("response".data) s with
    | some r => some r
    | none => icPrefix? ("result".data) s

def optChar (c : Char) (s : List Char) : List Char :=
  match s with
  | x :: rest => if x.toLower = c then rest else s
  | [] => s

/-- `re.sub(r"^\s*Here\s+(?:is|are)\s+(?:the\s+)?(?:JSON|response|result)s?:?\s*", "", s, IGNORECASE)`. -/
def stripHerePreamble (s : List Char) : List Char :=
  let attempt : Option (List Char) := do
    let r1 ← icPrefix? ("here".data) (dropWsL s)
    let r2 ← wsPlus? r1
    let r3 ← match icPrefix? ("is".data) r2 with
      | some r => some r
      | none => icPrefix? ("are".data) r2
    let r4 ← wsPlus? r3
    let r5 : List Char :=
      match icPrefix? ("the".data) r4 with
      | some rThe =>
        match wsPlus? rThe with
        | some rThe2 => if (kwAlternatives rThe2).isSome then rThe2 else r4
        | none => r4
      | none => r4
    let r6 ← kwAlternatives r5
    let r7 := optChar 's' r6
    let r8 := optChar ':' r7
    pure (dropWsL r8)
  match attempt with
  | some rest => rest
  | none => s

/-- The four preamble substitutions of `_clean_markdown_response`, applied in
source order. -/
def strip_preambles (s : String) : String :=
  let r := stripSimplePreamble "assistant:" s.data
  let r := stripHerePreamble r
  let r := stripSimplePreamble "response:" r
  let r := stripSimplePreamble "output:" r
  String.mk r

/-- `\s*\n` (greedy with backtracking) followed by the lazy fenced body:
the whitespace run must contain a newline; the body starts after its last
newline and runs to the first `\n`-plus-fence. -/
def fenceAt (after : List Char) : Option (List Char) :=
  let w := after.takeWhile isPyWs
  let rest := after.dropWhile isPyWs
  if w.contains '\n' then
    let trailing := (w.reverse.takeWhile (fun c => c ≠ '\n')).reverse
    match splitFirst? ('\n' :: "```".data) (trailing ++ rest) with
    | some (body, _) => some body
    | none => none
  else none

/-- `re.search(r"```(?:json)?\s*\n(.*?)\n```", s, DOTALL)`, returning the
captured body of the leftmost match. -/
def fenceFind : Nat → List Char → Option (List Char)
  | 0, _ => none
  | fuel + 1, s =>
    match findSub? ("```".data) s with
    | none => none
    | some i =>
      let after := s.drop (i + 3)
      let withJson :=
        if ("json".data).isPrefixOf after then fenceAt (after.drop 4) else none
      match withJson with
      | some body => some body
      | none =>
        match fenceAt after with
        | some body => some body
        | none => fenceFind fuel (s.drop (i + 1))

/-! ### Brace scan and `LLM._clean_markdown_response` -/

/-- The scanning loop of `_clean_markdown_response`: brace depth outside
double-quoted spans, with backslash escaping; returns the offset (from the
scan start) of the closing brace at which the depth returns to zero. -/
def scanLoop : List Char → Int → Bool → Bool → Nat → Option Nat
  | [], _, _, _, _ => none
  | c :: rest, depth, inStr, esc, pos =>
    if esc then scanLoop rest depth inStr false (pos + 1)
    else if c = '\\' then scanLoop rest depth inStr true (pos + 1)
    else if c = '"' then scanLoop rest depth (!inStr) false (pos + 1)
    else if !inStr && c = Char.ofNat 123 then scanLoop rest (depth + 1) inStr false (pos + 1)
    else if !inStr && c = Char.ofNat 125 then
      if depth - 1 = 0 then some pos
      else scanLoop rest (depth - 1) inStr false (pos + 1)
    else scanLoop rest depth inStr false (pos + 1)

/-- Steps 3-5 of `_clean_markdown_response` (preamble stripping, fence
extraction, brace scan), which are total. -/
def extract_json_stages (response : String) : String :=
  let r1 := strip_preambles response
  let r2 :=
    match fenceFind (r1.length + 1) r1.data with
    | some body => String.mk body
    | none => r1
  match findSub? [Char.ofNat 123] r2.data with
  | none => r2
  | some start =>
    let tail := r2.data.drop start
    match scanLoop tail 0 false false 0 with
    | some pos => String.mk (tail.take (pos + 1))
    | none => String.mk tail

/-- `LLM._clean_markdown_response`: the response-cleaning entry point.
`.error ()` propagates the `json.JSONDecodeError` of the Anthropic-dialect
converter. -/
def clean_markdown_response (response : String) : Except Unit String :=
  let converted := convert_xml_tool_call_format response
  if converted ≠ response then .ok converted
  else
    match convert_anthropic_format response with
    | .error e => .error e
    | .ok converted2 =>
      if converted2 ≠ response then .ok converted2
      else .ok (extract_json_stages response)


/-! ### Spec-side brace scan (the specification's own description of the
extraction step, written from the spec text for the refinement comparison:
a per-character state fold and a first-closing-position search) -/

structure ScanSt where
  depth : Int
  inStr : Bool
  esc : Bool

/-- One character of the spec's scan: track escaping, double-quoted spans,
and brace depth outside strings. -/
def scanStep (st : ScanSt) (c : Char) : ScanSt :=
  if st.esc then { st with esc := false }
  else if c = '\\' then { st with esc := true }
  else if c = '"' then { st with inStr := !st.inStr, esc := false }
  else if !st.inStr && c = Char.ofNat 123 then { st with depth := st.depth + 1, esc := false }
  else if !st.inStr && c = Char.ofNat 125 then { st with depth := st.depth - 1, esc := false }
  else { st with esc := false }

def scanStateFrom (st : ScanSt) (cs : List Char) : ScanSt := cs.foldl scanStep st

/-- Position `k` of `tail` is a countable closing brace at which the depth
first returns to zero: the scanner is not escaped and not inside a string
there, the character is a closing brace, and the depth before it is 1. -/
def closesAtSt (tail : List Char) (st0 : ScanSt) (k : Nat) : Bool :=
  match tail.get? k with
  | some c =>
    let st := scanStateFrom st0 (tail.take k)
    !st.esc && !st.inStr && (c = Char.ofNat 125) && (st.depth - 1 = 0)
  | none => false

/-- The first position where the depth returns to zero, if any. -/
def closePosFromSt (tail : List Char) (st0 : ScanSt) : Option Nat :=
  (List.range tail.length).find? (closesAtSt tail st0)

/-- The spec's description of the brace extraction: no opening brace means
the string is returned unmodified; otherwise the substring from the first
opening brace to the first depth-zero return, or to the end of the string
if the depth never returns to zero. -/
def braceExtract (s : String) : String :=
  match s.data.findIdx? (fun c => c = Char.ofNat 123) with
  | none => s
  | some start =>
    let tail := s.data.drop start
    match closePosFromSt tail { depth := 0, inStr := false, esc := false } with
    | some pos => String.mk (tail.take (pos + 1))
    | none => String.mk tail

/-! ### Framework data model (`framework/messages.py`) -/

inductive Role where
  | system
  | user
  | assistant
  | tool
deriving DecidableEq

def Role.toStr : Role → String
  | .system => "system"
  | .user => "user"
  | .assistant => "assistant"
  | .tool => "tool"

inductive ErrorCode where
  | api_error
  | validation_error
  | execution_error
  | timeout
  | max_turns_reached
  | parse_error
  | content_filter
  | empty_response
deriving DecidableEq

/-- The `.value` string of each `ErrorCode` enum member. -/
def ErrorCode.value : ErrorCode → String
  | .api_error => "api_error"
  | .validation_error => "validation_error"
  | .execution_error => "execution_error"
  | .timeout => "timeout"
  | .max_turns_reached => "max_turns_reached"
  | .parse_error => "parse_error"
  | .content_filter => "content_filter"
  | .empty_response => "empty_response"

/-- Python `str(ErrorCode.X)`, as interpolated into f-strings. -/
def ErrorCode.pyStr : ErrorCode → String
  | .api_error => "ErrorCode.API_ERROR"
  | .validation_error => "ErrorCode.VALIDATION_ERROR"
  | .execution_error => "ErrorCode.EXECUTION_ERROR"
  | .timeout => "ErrorCode.TIMEOUT"
  | .max_turns_reached => "ErrorCode.MAX_TURNS_REACHED"
  | .parse_error => "ErrorCode.PARSE_ERROR"
  | .content_filter => "ErrorCode.CONTENT_FILTER"
  | .empty_response => "ErrorCode.EMPTY_RESPONSE"

structure ToolCall where
  id : String
  tool : String
  args : List (String × JValue)

structure Message where
  role : Role
  content : String
  timestamp : Int
  error_code : Option ErrorCode := none
  tool_calls : Option (List ToolCall) := none
  metadata : Option (List (String × JValue)) := none
  tool_call_id : Option String := none
  name : Option String := none
  tokens_in : Option Int := none
  tokens_out : Option Int := none

inductive ResultStatus where
  | success
  | error
  | max_turns_reached
deriving DecidableEq

/-- The metadata dict attached by `_run_loop` to its final `Result`
(`turns`, `tokens`, `trajectory`). -/
structure RunMeta where
  turns : Nat
  tokens : Nat
  trajectory : List Message

/-- The `Result` returned by `run()`. -/
structure RunResult where
  value : Option String
  error : Option String := none
  status : ResultStatus
  metadata : Option RunMeta := none

/-! ### `AgentResponse.model_validate_json`

The pydantic model requires all four fields (`reasoning : str`,
`tool_calls : list[ToolCall] | None`, `result : str | None`,
`is_finished : bool`); extra keys are ignored.  Lax-mode scalar coercions
that never fire on the canonical inputs (e.g. the string `"true"` for a
bool field) are not modelled. -/

structure AgentResponseP where
  reasoning : String
  tool_calls : Option (List ToolCall)
  result : Option String
  is_finished : Bool

def parseToolCallJ (v : JValue) : Option ToolCall :=
  match v with
  | .obj fields =>
    match alistLookup fields "id", alistLookup fields "tool", alistLookup fields "args" with
    | some (.str i), some (.str t), some (.obj args) => some ⟨i, t, args⟩
    | _, _, _ => none
  | _ => none

def parseToolCallsField (v : JValue) : Option (Option (List ToolCall)) :=
  match v with
  | .null => some none
  | .arr elems => (elems.mapM parseToolCallJ).map some
  | _ => none

def parseResultField (v : JValue) : Option (Option String) :=
  match v with
  | .null => some none
  | .str r => some (some r)
  | _ => none

def parseAgentResponse (s : String) : Option AgentResponseP :=
  match json_loads s with
  | some (.obj fields) =>
    match alistLookup fields "reasoning", alistLookup fields "tool_calls",
        alistLookup fields "result", alistLookup fields "is_finished" with
    | some (.str reasoning), some tcv, some resv, some (.bool fin) =>
      match parseToolCallsField tcv, parseResultField resv with
      | some tcs, some res => some ⟨reasoning, tcs, res, fin⟩
      | _, _ => none
    | _, _, _, _ => none
  | _ => none

/-! ### `LLM.call` (`framework/llm.py`)

Only the non-raising classification paths are embedded: the transport
exceptions (auth, bad request, permission, transient) and the structural
contract checks abort the run and are excluded by every claim's
hypotheses, and the native `finish_reason == "tool_calls"` conversion is
exercised by no claim.  `.error ()` is the `json.JSONDecodeError` escaping
from `_clean_markdown_response`. -/

/-- One provider response, as the transport hands it over. -/
structure ProviderReply where
  finish_reason : String
  content : Option String
  tin : Nat
  tout : Nat
  model : String := "m"

def usageMeta (r : ProviderReply) : JValue :=
  .obj [("prompt_tokens", .int r.tin), ("completion_tokens", .int r.tout),
        ("total_tokens", .int (r.tin + r.tout))]

def pyReprOptStr (c : Option String) : String :=
  match c with
  | none => "None"
  | some s => "\x27" ++ s ++ "\x27"

def filteredMsg (r : ProviderReply) : Message :=
  { role := .assistant, content := "Content was blocked by safety filters",
    error_code := some .content_filter, timestamp := 0,
    tokens_in := some (r.tin : Int), tokens_out := some (r.tout : Int),
    metadata := some [("raw_content", match r.content with | some c => .str c | none => .null),
                      ("finish_reason", .str r.finish_reason),
                      ("model", .str r.model), ("usage", usageMeta r)] }

def emptyMsg (r : ProviderReply) : Message :=
  let contentStatus :=
    match r.content with
    | none => "None"
    | some c => "empty string (len=" ++ toString c.length ++ ")"
  { role := .assistant,
    content := "API call succeeded but returned empty content. finish_reason=" ++
      r.finish_reason ++ ", content=" ++ contentStatus ++ ", tokens_in=" ++
      toString r.tin ++ ", tokens_out=" ++ toString r.tout,
    error_code := some .empty_response, timestamp := 0,
    tokens_in := some (r.tin : Int), tokens_out := some (r.tout : Int),
    metadata := some [("finish_reason", .str r.finish_reason),
                      ("content_was_none", .bool r.content.isNone),
                      ("content_length", .int (match r.content with | some c => (c.length : Int) | none => 0)),
                      ("raw_content_repr", .str (pyReprOptStr r.content))] }

def normalMsg (r : ProviderReply) (original cleaned : String) : Message :=
  { role := .assistant, content := cleaned, timestamp := 0,
    tokens_in := some (r.tin : Int), tokens_out := some (r.tout : Int),
    metadata := some [("raw_content", .str original),
                      ("finish_reason", .str r.finish_reason),
                      ("model", .str r.model), ("usage", usageMeta r)] }

def llm_call (r : ProviderReply) : Except Unit Message :=
  if r.finish_reason = "content_filter" then .ok (filteredMsg r)
  else
    match r.content with
    | none => .ok (emptyMsg r)
    | some c =>
      if pyStrip c = "" then .ok (emptyMsg r)
      else
        match clean_markdown_response c with
        | .error e => .error e
        | .ok cleaned => .ok (normalMsg r c cleaned)

/-! ### `Agent._get_agent_response` (`framework/agents.py`) -/

/-- The metadata dict of the `Result` built by `_get_agent_response`, as a
structure (the dict always carries these keys). -/
structure GarMeta where
  semantic_error : Bool
  error_code : Option ErrorCode := none
  error_message : String := ""
  raw_response : String := ""
  tool_calls : Option (List ToolCall) := none
  is_finished : Bool := false
  reasoning : String := ""
  result : Option String := none
  llm_metadata : Option (List (String × JValue)) := none

def parseErrorMessage : String :=
  "Invalid response format.\n\nPlease respond with valid JSON matching the required schema."

/-- `_get_agent_response`: classify one provider reply.  Returns the
metadata record and the updated `tokens_used`.  In the source the success
branch stores `response_content` — a local initialised to `""` and never
reassigned — under `"raw_response"`; the embedding reproduces that
verbatim.  `_get_agent_response` always returns `status=SUCCESS`, so the
`status != SUCCESS` early-return in `_run_loop` is dead code and carries no
model. -/
def get_agent_response (r : ProviderReply) (tokens_used : Nat) : GarMeta × Nat :=
  match llm_call r with
  | .error _ =>
    -- `json.JSONDecodeError` raised inside `llm.call` lands in the
    -- `except (json.JSONDecodeError, ValidationError)` arm before the
    -- token-tracking line ran; `raw_llm_response` is still `""` there.
    ({ semantic_error := true, error_code := some .parse_error,
       error_message := parseErrorMessage, raw_response := "" }, tokens_used)
  | .ok m =>
    let tokens := r.tin + r.tout
    let tu := tokens_used + tokens
    match m.error_code with
    | some code =>
      ({ semantic_error := true, error_code := some code, error_message := m.content,
         raw_response := m.content,
         reasoning := "LLM returned error: " ++ code.pyStr,
         llm_metadata := m.metadata }, tu)
    | none =>
      match parseAgentResponse m.content with
      | some ar =>
        ({ semantic_error := false, raw_response := "",
           tool_calls := ar.tool_calls, is_finished := ar.is_finished,
           reasoning := ar.reasoning, result := ar.result }, tu)
      | none =>
        ({ semantic_error := true, error_code := some .parse_error,
           error_message := parseErrorMessage, raw_response := m.content }, tu)

/-! ### Tool invocation (`Agent._execute_tools`) -/

/-- A registered tool: `Tool.run` validates and executes, returning a
tool-role message's content and optional error code, and never raises. -/
structure ToolM where
  name : String
  run : List (String × JValue) → String × Option ErrorCode

/-- `Agent._find_tool`: `None` unless exactly one registered tool matches. -/
def find_tool (tools : List ToolM) (tool_name : String) : Option ToolM :=
  match tools.filter (fun t => t.name = tool_name) with
  | [t] => some t
  | _ => none

structure ToolExecOutcome where
  status : ResultStatus
  value : Option String
  error : Option String
  tool_call_id : String
  tool_name : String

def pyStrListRepr (names : List String) : String :=
  "[" ++ String.intercalate ", " (names.map (fun n => "\x27" ++ n ++ "\x27")) ++ "]"

def execute_single_tool (tools : List ToolM) (tc : ToolCall) : ToolExecOutcome :=
  match find_tool tools tc.tool with
  | none =>
    { status := .error, value := none,
      error := some ("Tool \x27" ++ tc.tool ++ "\x27 not found. Available: " ++
        pyStrListRepr (tools.map (fun t => t.name))),
      tool_call_id := tc.id, tool_name := tc.tool }
  | some t =>
    let res := t.run tc.args
    { status := if res.2.isNone then .success else .error,
      value := if res.2.isNone then some res.1 else none,
      error := if res.2.isNone then none else some res.1,
      tool_call_id := tc.id, tool_name := tc.tool }

/-- `(value if success else error) or "No result"`: Python `or` also
replaces the empty string. -/
def toolMsgContent (o : ToolExecOutcome) : String :=
  match (if o.status = .success then o.value else o.error) with
  | none => "No result"
  | some s => if s = "" then "No result" else s

def toolMessageOf (o : ToolExecOutcome) : Message :=
  { role := .tool, tool_call_id := some o.tool_call_id, name := some o.tool_name,
    content := toolMsgContent o, timestamp := 0 }

/-- `Agent._execute_tools`: execute sequentially, appending one tool-role
message per call. -/
def execute_tools (tools : List ToolM) (tcs : List ToolCall) (msgs : List Message) :
    List Message × List ToolExecOutcome :=
  match tcs with
  | [] => (msgs, [])
  | tc :: rest =>
    let o := execute_single_tool tools tc
    let (msgs2, os) := execute_tools tools rest (msgs ++ [toolMessageOf o])
    (msgs2, o :: os)

/-! ### The agent loop (`Agent._run_loop`)

Observers are sound to omit: `_notify` swallows every observer exception
and observers receive no way to mutate the agent's state.  The provider is
modelled as a stream `replies : Nat → ProviderReply`, indexed by the number
of provider calls made so far; `llm_calls` counts them.  The `while
turn_count < max_turns` loop increments `turn_count` exactly once per
iteration, so `max_turns - turn_count` is its structural fuel. -/

structure AgentState where
  messages : List Message
  turn_count : Nat
  tokens_used : Nat
  llm_calls : Nat := 0

structure AgentCfg where
  tools : List ToolM
  max_turns : Nat
  system_prompt_rendered : String

def nudge_message : String :=
  "Your last response was empty. Please respond with valid JSON in this format:\n" ++
  "\x7b\n  \"reasoning\": \"your thinking about what to do next\",\n" ++
  "  \"tool_calls\": [...] or null,\n  \"is_finished\": true or false,\n" ++
  "  \"result\": \"final answer\" or null\n\x7d"

def max_turns_value : String := "[MAX_TURNS] Agent did not complete within turn limit"

def maxTurnsResult (st : AgentState) : RunResult :=
  { value := some max_turns_value, status := .max_turns_reached,
    metadata := some ⟨st.turn_count, st.tokens_used, st.messages⟩ }

def semanticErrorMessage (gar : GarMeta) : Message :=
  let message_to_send :=
    if gar.error_code = some .empty_response then nudge_message else gar.error_message
  { role := .assistant, content := message_to_send, error_code := gar.error_code,
    timestamp := 0, metadata := gar.llm_metadata }

def assistantMessageOf (gar : GarMeta) : Message :=
  { role := .assistant, content := gar.raw_response, tool_calls := gar.tool_calls,
    timestamp := 0,
    metadata := some [("reasoning", .str gar.reasoning),
                      ("is_finished", .bool gar.is_finished)] }

def run_loop_aux (cfg : AgentCfg) (replies : Nat → ProviderReply) :
    Nat → AgentState → RunResult × AgentState
  | 0, st => (maxTurnsResult st, st)
  | fuel + 1, st =>
    let st := { st with turn_count := st.turn_count + 1 }
    let gr := get_agent_response (replies st.llm_calls) st.tokens_used
    let gar := gr.1
    let st := { st with tokens_used := gr.2, llm_calls := st.llm_calls + 1 }
    if gar.semantic_error then
      run_loop_aux cfg replies fuel
        { st with messages := st.messages ++ [semanticErrorMessage gar] }
    else
      let msgs1 := st.messages ++ [assistantMessageOf gar]
      let msgs2 :=
        match gar.tool_calls with
        | some tcs =>
          if tcs.isEmpty then msgs1
          else (execute_tools cfg.tools tcs msgs1).1
        | none => msgs1
      let st := { st with messages := msgs2 }
      if gar.is_finished then
        -- `value := metadata.get("result", "")`: the key is always present
        -- (possibly None), so the `""` default never applies.
        ({ value := gar.result, status := .success,
           metadata := some ⟨st.turn_count, st.tokens_used, st.messages⟩ }, st)
      else run_loop_aux cfg replies fuel st

/-- `Agent.run` / `Agent._run_loop` without the checkpoint plumbing
(checkpoints are modelled separately; `auto_checkpoint` only fires on the
exception path, which no claim's hypotheses reach). -/
def agent_run (cfg : AgentCfg) (replies : Nat → ProviderReply) (input : String)
    (reset : Bool) (st : AgentState) : RunResult × AgentState :=
  let st :=
    if reset || st.messages.isEmpty then
      { st with
        messages := [{ role := .system, content := cfg.system_prompt_rendered, timestamp := 0 }],
        turn_count := 0, tokens_used := 0 }
    else st
  let st := { st with messages := st.messages ++ [{ role := .user, content := input, timestamp := 0 }] }
  run_loop_aux cfg replies (cfg.max_turns - st.turn_count) st

/-- A fresh agent, as constructed by `Agent.__init__`. -/
def freshState : AgentState := { messages := [], turn_count := 0, tokens_used := 0 }

/-! ### Checkpoints (`Agent.save_checkpoint` / `Agent.load_checkpoint`)

`save_checkpoint` writes `model_dump(mode="json")` of every message plus the
two counters as one JSON object; `load_checkpoint` rebuilds `Message(**d)`
for each entry.  The embedding works on the JSON value; the byte-level
rendering and reparsing of that value is Python's `json` standard library.
-/

def optStrJ : Option String → JValue
  | none => .null
  | some s => .str s

def optIntJ : Option Int → JValue
  | none => .null
  | some n => .int n

def ToolCall.toJson (tc : ToolCall) : JValue :=
  .obj [("id", .str tc.id), ("tool", .str tc.tool), ("args", .obj tc.args)]

def Message.toJson (m : Message) : JValue :=
  .obj [("role", .str m.role.toStr),
        ("content", .str m.content),
        ("timestamp", .int m.timestamp),
        ("error_code", match m.error_code with | none => .null | some c => .str c.value),
        ("tool_calls", match m.tool_calls with
          | none => .null
          | some tcs => .arr (tcs.map ToolCall.toJson)),
        ("metadata", match m.metadata with | none => .null | some md => .obj md),
        ("tool_call_id", optStrJ m.tool_call_id),
        ("name", optStrJ m.name),
        ("tokens_in", optIntJ m.tokens_in),
        ("tokens_out", optIntJ m.tokens_out)]

def roleOfStr (s : String) : Option Role :=
  if s = "system" then some .system
  else if s = "user" then some .user
  else if s = "assistant" then some .assistant
  else if s = "tool" then some .tool
  else none

def errorCodeOfStr (s : String) : Option ErrorCode :=
  if s = "api_error" then some .api_error
  else if s = "validation_error" then some .validation_error
  else if s = "execution_error" then some .execution_error
  else if s = "timeout" then some .timeout
  else if s = "max_turns_reached" then some .max_turns_reached
  else if s = "parse_error" then some .parse_error
  else if s = "content_filter" then some .content_filter
  else if s = "empty_response" then some .empty_response
  else none

def parseOptStrField (fields : List (String × JValue)) (key : String) : Option (Option String) :=
  match alistLookup fields key with
  | none => some none
  | some .null => some none
  | some (.str s) => some (some s)
  | some _ => none

def parseOptIntField (fields : List (String × JValue)) (key : String) : Option (Option Int) :=
  match alistLookup fields key with
  | none => some none
  | some .null => some none
  | some (.int n) => some (some n)
  | some _ => none

/-- `Message(**d)`: pydantic validation of one dumped message. -/
def Message.fromJson (v : JValue) : Option Message :=
  match v with
  | .obj fields =>
    match alistLookup fields "role", alistLookup fields "content",
        alistLookup fields "timestamp" with
    | some (.str roleS), some (.str content), some (.int ts) =>
      match roleOfStr roleS with
      | none => none
      | some role =>
        let ec : Option (Option ErrorCode) :=
          match alistLookup fields "error_code" with
          | none => some none
          | some .null => some none
          | some (.str s) => (errorCodeOfStr s).map some
          | some _ => none
        let tcs : Option (Option (List ToolCall)) :=
          match alistLookup fields "tool_calls" with
          | none => some none
          | some .null => some none
          | some (.arr elems) => (elems.mapM parseToolCallJ).map some
          | some _ => none
        let md : Option (Option (List (String × JValue))) :=
          match alistLookup fields "metadata" with
          | none => some none
          | some .null => some none
          | some (.obj l) => some (some l)
          | some _ => none
        match ec, tcs, md, parseOptStrField fields "tool_call_id",
            parseOptStrField fields "name", parseOptIntField fields "tokens_in",
            parseOptIntField fields "tokens_out" with
        | some ec', some tcs', some md', some tcid, some nm, some tin, some tout =>
          some { role := role, content := content, timestamp := ts, error_code := ec',
                 tool_calls := tcs', metadata := md', tool_call_id := tcid, name := nm,
                 tokens_in := tin, tokens_out := tout }
        | _, _, _, _, _, _, _ => none
    | _, _, _ => none
  | _ => none

/-- `Agent.save_checkpoint`: the checkpoint object written to disk. -/
def save_checkpoint (msgs : List Message) (turn_count tokens_used : Nat) : JValue :=
  .obj [("messages", .arr (msgs.map Message.toJson)),
        ("turn_count", .int turn_count),
        ("tokens_used", .int tokens_used)]

/-- `Agent.load_checkpoint`: rebuild messages and counters from a checkpoint
object. -/
def load_checkpoint (v : JValue) : Option (List Message × Nat × Nat) :=
  match v with
  | .obj fields =>
    match alistLookup fields "messages", alistLookup fields "turn_count",
        alistLookup fields "tokens_used" with
    | some (.arr msgVals), some (.int tc), some (.int tu) =>
      match msgVals.mapM Message.fromJson with
      | some msgs => some (msgs, tc.toNat, tu.toNat)
      | none => none
    | _, _, _ => none
  | _ => none

/-! ### Batch trace validator (`agents/file_navigator/validators.py`) -/

/-- One record of `extract_tool_calls`: tool name, args, the paired
tool-result content, and the index of the assistant message. -/
structure TCRecord where
  tool : String
  args : List (String × JValue)
  result : Option String
  turn_index : Nat

/-- Forward search for the tool message answering `cid`, stopping at the
next assistant message. -/
def findResultAux : List Message → String → Option String
  | [], _ => none
  | m :: rest, cid =>
    if m.role = .tool && m.tool_call_id = some cid then some m.content
    else if m.role = .assistant then none
    else findResultAux rest cid

def extract_tool_calls_aux : List Message → Nat → List TCRecord
  | [], _ => []
  | m :: rest, i =>
    (if m.role = .assistant then
      match m.tool_calls with
      | some tcs =>
        if tcs.isEmpty then []
        else tcs.map (fun tc =>
          { tool := tc.tool, args := tc.args, result := findResultAux rest tc.id,
            turn_index := i })
      | none => []
    else []) ++ extract_tool_calls_aux rest (i + 1)

def extract_tool_calls (msgs : List Message) : List TCRecord :=
  extract_tool_calls_aux msgs 0

/-- `isinstance(v, int | float)` followed by `int(v)`.  Python `bool` is a
subclass of `int`, so JSON booleans coerce to 0/1.  `int()` of a float
truncates toward zero; the float lexeme is evaluated accordingly
(`int(NaN)`/`int(Infinity)` would raise in Python and yield `none` here,
a case no verified trace reaches). -/
def floatTruncInt (rep : String) : Option Int :=
  let cs := rep.data
  let (neg, cs1) := match cs with
    | '-' :: r => (true, r)
    | '+' :: r => (false, r)
    | r => (false, r)
  let (mant, exDigits) : List Char × Option (List Char) :=
    match splitFirst? ['e'] cs1 with
    | some pr => (pr.1, some pr.2)
    | none =>
      match splitFirst? ['E'] cs1 with
      | some pr => (pr.1, some pr.2)
      | none => (cs1, none)
  let exVal : Option Int :=
    match exDigits with
    | none => some 0
    | some ('-' :: ds) => if ds ≠ [] && allDigits ds then some (-(digitsToNat ds 0 : Int)) else none
    | some ('+' :: ds) => if ds ≠ [] && allDigits ds then some ((digitsToNat ds 0 : Int)) else none
    | some ds => if ds ≠ [] && allDigits ds then some ((digitsToNat ds 0 : Int)) else none
  match exVal with
  | none => none
  | some ex =>
    let (ip, fp) : List Char × List Char :=
      match splitFirst? ['.'] mant with
      | some pr => pr
      | none => (mant, [])
    if allDigits ip && allDigits fp && (ip ≠ [] || fp ≠ []) then
      let d := digitsToNat (ip ++ fp) 0
      let scale : Int := ex - (fp.length : Int)
      let mag : Nat := if 0 ≤ scale then d * 10 ^ scale.toNat else d / 10 ^ (-scale).toNat
      some (if neg then -(mag : Int) else (mag : Int))
    else none

def intOfJValue : JValue → Option Int
  | .int n => some n
  | .bool b => some (if b then 1 else 0)
  | .float rep => floatTruncInt rep
  | _ => none

structure InvalidUse where
  value : Int
  arg : String
  turn : Nat
deriving DecidableEq

/-- Sorted dict keys: first-occurrence order deduplication, then
`sorted(...)` (ascending). -/
def sortedTurnKeys (tcs : List TCRecord) : List Nat :=
  ((tcs.map (fun tc => tc.turn_index)).dedup).insertionSort (· ≤ ·)

def turnGroup (tcs : List TCRecord) (t : Nat) : List TCRecord :=
  tcs.filter (fun tc => tc.turn_index = t)

def calcEntriesOfTC (valid : List Int) (tc : TCRecord) : List InvalidUse :=
  if tc.tool = "calculator" then
    tc.args.filterMap (fun kv =>
      match intOfJValue kv.2 with
      | some v => if v ∈ valid then none else some ⟨v, kv.1, tc.turn_index⟩
      | none => none)
  else []

/-- The integer a calculator record's paired result contributes
(`if tc["result"]:` is a truthiness test, so the empty string is skipped;
`int(...)` failures are skipped). -/
def resultIntOf (tc : TCRecord) : Option Int :=
  if tc.tool = "calculator" then
    match tc.result with
    | some s => if s ≠ "" then pyIntParse s else none
    | none => none
  else none

/-- The calculator results collected from one batch. -/
def turnResultsOf (group : List TCRecord) : List Int :=
  group.filterMap resultIntOf

/-- The per-turn two-phase loop of `check_used_only_valid_values`: validate
every calculator call of the batch against the current valid set, then add
all of the batch's results.  The Python `set` is modelled as a list up to
membership. -/
def processTurns (tcs : List TCRecord) : List Nat → List Int → List InvalidUse
  | [], _ => []
  | t :: rest, valid =>
    let group := turnGroup tcs t
    (group.map (calcEntriesOfTC valid)).flatten ++
      processTurns tcs rest (valid ++ turnResultsOf group)

/-- `check_used_only_valid_values`, reduced to its `invalid_uses` list (the
check passes iff the list is empty; the surrounding `ValidationResult`
carries no further logic). -/
def check_used_only_valid_values (msgs : List Message) (valid_file_sizes : List Int) :
    List InvalidUse :=
  let tcs := extract_tool_calls msgs
  processTurns tcs (sortedTurnKeys tcs) valid_file_sizes

/-! ### Streaming trace validator (`agents/file_navigator/eval/validator.py`)

`ToolCallValidator` scans the trace chronologically: each assistant message
bumps the turn counter and validates its tool calls against the current
state; each tool message updates the state.  The Python `set[int]` fields
are modelled as lists up to membership. -/

inductive EvalViolation where
  | unknown_tool (tool : String) (turn : Nat)
  | invalid_calculator_arg (arg : String) (value : Int) (turn : Nat)
deriving DecidableEq

structure VState where
  required_calls : List (String × String)
  valid_values : List Int
  test_file_sizes_seen : List Int
  violations : List EvalViolation
  warnings : List (String × Nat)
  tool_call_count : Nat
  calculator_call_count : Nat
  listdir_call_count : Nat

/-- `ToolCallValidator.__init__`. -/
def validatorInit (initial_path : String) : VState :=
  { required_calls := [("mocklistdirectory", initial_path)], valid_values := [],
    test_file_sizes_seen := [], violations := [], warnings := [],
    tool_call_count := 0, calculator_call_count := 0, listdir_call_count := 0 }

/-- `args.get("path", "")`; non-string path values never occur in the traces
and would never match a (string) required call in Python either. -/
def pathArgOf (args : List (String × JValue)) : String :=
  match alistLookup args "path" with
  | some (.str p) => p
  | _ => ""

/-- `ToolCallValidator._validate_listdir_call`. -/
def validate_listdir_call (st : VState) (tc : ToolCall) (turn : Nat) : VState × Bool :=
  let st := { st with listdir_call_count := st.listdir_call_count + 1 }
  let sig := ("mocklistdirectory", pathArgOf tc.args)
  if sig ∈ st.required_calls then
    ({ st with required_calls := st.required_calls.erase sig }, true)
  else
    ({ st with warnings := st.warnings ++ [(pathArgOf tc.args, turn)] }, true)

def calcArgViolation (st : VState) (args : List (String × JValue)) (argName : String)
    (turn : Nat) : Option EvalViolation :=
  match alistLookup args argName with
  | some v =>
    match intOfJValue v with
    | some iv =>
      if iv ∈ st.valid_values then none
      else some (.invalid_calculator_arg argName iv turn)
    | none => none
  | none => none

/-- `ToolCallValidator._validate_calculator_call`: check `x` then `y`,
recording (and returning `False` on) the first out-of-set numeric value. -/
def validate_calculator_call (st : VState) (tc : ToolCall) (turn : Nat) : VState × Bool :=
  let st := { st with calculator_call_count := st.calculator_call_count + 1 }
  match calcArgViolation st tc.args "x" turn with
  | some viol => ({ st with violations := st.violations ++ [viol] }, false)
  | none =>
    match calcArgViolation st tc.args "y" turn with
    | some viol => ({ st with violations := st.violations ++ [viol] }, false)
    | none => (st, true)

/-- `ToolCallValidator.validate_tool_call`. -/
def validate_tool_call (st : VState) (tc : ToolCall) (turn : Nat) : VState × Bool :=
  let st := { st with tool_call_count := st.tool_call_count + 1 }
  if tc.tool = "mocklistdirectory" then validate_listdir_call st tc turn
  else if tc.tool = "calculator" then validate_calculator_call st tc turn
  else ({ st with violations := st.violations ++ [.unknown_tool tc.tool turn] }, false)

/-- `^\s*([^/\s]+)/\s+\(directory` via `re.match`: the capture is the maximal
run of non-slash non-space characters (prefix maximality makes the
backtracking-free reading exact). -/
def subdirParse (line : String) : Option String :=
  let cs := dropWsL line.data
  let cap := cs.takeWhile (fun c => ¬ (c = '/' || isPyWs c))
  match cs.drop cap.length with
  | '/' :: rest =>
    if cap ≠ [] then
      match wsPlus? rest with
      | some r => if ("(directory".data).isPrefixOf r then some (String.mk cap) else none
      | none => none
    else none
  | _ => none

/-- `^\s*(\S+)\s+\(file,\s+([\d,]+)\s+bytes\)` via `re.match`, then
`int(size.replace(",", ""))`.  (A digit-free capture would make `int("")`
raise in Python; such lines occur in no trace and yield `none` here.) -/
def fileParse (line : String) : Option (String × Int) :=
  let cs := dropWsL line.data
  let tok := cs.takeWhile (fun c => ¬ isPyWs c)
  let rest := cs.drop tok.length
  if tok = [] then none
  else
    match wsPlus? rest with
    | none => none
    | some r2 =>
      if ("(file,".data).isPrefixOf r2 then
        match wsPlus? (r2.drop 6) with
        | none => none
        | some r3 =>
          let digrun := r3.takeWhile (fun c => c.isDigit || c = ',')
          let r4 := r3.drop digrun.length
          if digrun = [] then none
          else
            match wsPlus? r4 with
            | none => none
            | some r5 =>
              if ("bytes)".data).isPrefixOf r5 then
                let digits := digrun.filter (fun c => c.isDigit)
                if digits = [] then none
                else some (String.mk tok, (digitsToNat digits 0 : Int))
              else none
      else none

/-- File sizes surfaced by one listing result, in line order. -/
def listingSizes (content : String) : List Int :=
  ((content.splitOn "\n").filterMap fileParse).map (fun pr => pr.2)

/-- Test-file sizes (`test_*.py`) surfaced by one listing result. -/
def listingTestSizes (content : String) : List Int :=
  ((content.splitOn "\n").filterMap fileParse).filterMap (fun pr =>
    if pr.1.startsWith "test_" && pr.1.endsWith ".py" then some pr.2 else none)

/-- New required calls discovered by one listing result (subdirectories,
skipping `__pycache__`), folded with the `not in required_calls` guard. -/
def addSubdirCalls (base_path : String) (lines : List String)
    (required : List (String × String)) : List (String × String) :=
  lines.foldl (fun req line =>
    match subdirParse line with
    | some nm =>
      if nm = "__pycache__" then req
      else
        let new_path := if base_path ≠ "" then base_path ++ "/" ++ nm else nm
        if ("mocklistdirectory", new_path) ∈ req then req
        else req ++ [("mocklistdirectory", new_path)]
    | none => req) required

/-- `ToolCallValidator._process_listdir_result`. -/
def process_listdir_result (st : VState) (tc : ToolCall) (result : String) : VState :=
  { st with
    required_calls := addSubdirCalls (pathArgOf tc.args) (result.splitOn "\n") st.required_calls,
    valid_values := st.valid_values ++ listingSizes result,
    test_file_sizes_seen := st.test_file_sizes_seen ++ listingTestSizes result }

/-- `ToolCallValidator._process_calculator_result`. -/
def process_calculator_result (st : VState) (result : String) : VState :=
  match pyIntParse result with
  | some v => { st with valid_values := st.valid_values ++ [v] }
  | none => st

/-- `ToolCallValidator.process_tool_result`. -/
def process_tool_result (st : VState) (tc : ToolCall) (resultContent : String) : VState :=
  if tc.tool = "mocklistdirectory" then process_listdir_result st tc resultContent
  else if tc.tool = "calculator" then process_calculator_result st resultContent
  else st

/-- The backward search of `validate_trace` over `reversed(messages[:i])`:
the inner loop breaks after the first matching call of a message, but the
outer loop keeps scanning, so every earlier message contributes its first
matching call. -/
def matchedCallsFor (prefixRev : List Message) (cid : String) : List ToolCall :=
  prefixRev.filterMap (fun pm =>
    match pm.tool_calls with
    | some tcs => if tcs.isEmpty then none else tcs.find? (fun tc => tc.id = cid)
    | none => none)

/-- One assistant message's validation pass (`turn1` is the already
incremented turn counter). -/
def assistantStepV (st : VState) (m : Message) (turn1 : Nat) : VState :=
  match m.tool_calls with
  | some tcs =>
    if tcs.isEmpty then st
    else tcs.foldl (fun s tc => (validate_tool_call s tc turn1).1) st
  | none => st

/-- One tool message's state update (backward search plus processing). -/
def toolStepV (prefixRev : List Message) (st : VState) (m : Message) : VState :=
  match m.tool_call_id with
  | some cid =>
    if cid = "" then st
    else (matchedCallsFor prefixRev cid).foldl (fun s tc => process_tool_result s tc m.content) st
  | none => st

/-- The chronological scan of `validate_trace` (`prefixRev` is
`reversed(messages[:i])`). -/
def evalScan : List Message → List Message → VState → Nat → VState
  | _, [], st, _ => st
  | prefixRev, m :: rest, st, turn =>
    if m.role = .assistant then
      evalScan (m :: prefixRev) rest (assistantStepV st m (turn + 1)) (turn + 1)
    else if m.role = .tool then
      evalScan (m :: prefixRev) rest (toolStepV prefixRev st m) turn
    else evalScan (m :: prefixRev) rest st turn

theorem evalScan_cons (prefixRev : List Message) (m : Message) (rest : List Message)
    (st : VState) (turn : Nat) :
    evalScan prefixRev (m :: rest) st turn =
      if m.role = .assistant then
        evalScan (m :: prefixRev) rest (assistantStepV st m (turn + 1)) (turn + 1)
      else if m.role = .tool then
        evalScan (m :: prefixRev) rest (toolStepV prefixRev st m) turn
      else evalScan (m :: prefixRev) rest st turn := rfl

/-- The state after scanning a whole trace (used both for full traces and
for prefixes: the scan is a left fold, so the mid-scan state over a longer
trace equals the full scan of the prefix). -/
def run_eval_scan (msgs : List Message) (initial_path : String) : VState :=
  evalScan [] msgs (validatorInit initial_path) 0

/-- The grounding values one matched call contributes from a result text. -/
def contribOfCall (tc : ToolCall) (content : String) : List Int :=
  if tc.tool = "mocklistdirectory" then listingSizes content
  else if tc.tool = "calculator" then (pyIntParse content).toList
  else []

/-- The grounding values a tool message contributes, given the reversed
prefix before it: listing file sizes and integer calculator results of its
matched calls. -/
def valuesOfToolMsg (prefixRev : List Message) (m : Message) : List Int :=
  match m.tool_call_id with
  | none => []
  | some cid =>
    if cid = "" then []
    else ((matchedCallsFor prefixRev cid).map (fun tc => contribOfCall tc m.content)).flatten

/-- The values surfaced strictly before the end of `msgs`, read off the
trace directly: every tool-result message contributes `valuesOfToolMsg`. -/
def surfacedValuesAux : List Message → List Message → List Int
  | _, [] => []
  | prefixRev, m :: rest =>
    (if m.role = .assistant then [] else if m.role = .tool then valuesOfToolMsg prefixRev m else []) ++
      surfacedValuesAux (m :: prefixRev) rest

def surfacedValues (pre : List Message) : List Int := surfacedValuesAux [] pre

/-- The number of assistant messages in a prefix (the validator's turn
counter after scanning it). -/
def assistantCount (msgs : List Message) : Nat :=
  (msgs.filter (fun m => m.role = .assistant)).length

/-! ### Concrete fixtures (used by witnesses and counterexamples) -/

set_option maxRecDepth 8000

def mkReply (c : String) : ProviderReply :=
  { finish_reason := "stop", content := some c, tin := 1, tout := 2 }

def cfg0 : AgentCfg := { tools := [], max_turns := 3, system_prompt_rendered := "sys" }

def finJson : String :=
  "\x7b\"reasoning\": \"r\", \"tool_calls\": null, \"result\": \"done\", \"is_finished\": true\x7d"

def nullFinJson : String :=
  "\x7b\"reasoning\": \"r\", \"tool_calls\": null, \"result\": null, \"is_finished\": true\x7d"

def contJson : String :=
  "\x7b\"reasoning\": \"r\", \"tool_calls\": null, \"result\": null, \"is_finished\": false\x7d"

def xmlReply : String :=
  "<tool_call>\n<function=calculator>\n<parameter=x>5</parameter>\n</function>\n</tool_call>"

/-! ### Loop lemmas -/

/-- The metadata record a reply produces (independent of the token counter). -/
def gar_of (r : ProviderReply) : GarMeta := (get_agent_response r 0).1

/-- The tokens a reply adds to the counter (zero when the cleaner raises). -/
def tok_of (r : ProviderReply) : Nat := (get_agent_response r 0).2

/-- The metadata record of `_get_agent_response` does not depend on the
incoming token counter, and the counter grows by the reply's tokens on the
non-raising paths (and not at all when the cleaner raises). -/
theorem get_agent_response_split (r : ProviderReply) (tu : Nat) :
    get_agent_response r tu = (gar_of r, tu + tok_of r) := by
  unfold gar_of tok_of
  unfold get_agent_response
  cases hc : llm_call r with
  | error e => rfl
  | ok m =>
    cases hec : m.error_code with
    | some code => simp [hec]
    | none =>
      cases hp : parseAgentResponse m.content with
      | some ar => simp [hec, hp]
      | none => simp [hec, hp]

/-- Whether one provider reply parses as a finishing response. -/
def replyFinishes (r : ProviderReply) : Bool :=
  !(gar_of r).semantic_error && (gar_of r).is_finished

/-- Whether one provider reply takes the semantic-error path. -/
def replySemantic (r : ProviderReply) : Bool :=
  (gar_of r).semantic_error

/-- If no reply ever finishes, the loop consumes all its fuel, making one
provider call and one turn increment per iteration, and returns the
max-turns result. -/
theorem run_loop_aux_no_finish (cfg : AgentCfg) (replies : Nat → ProviderReply)
    (h : ∀ n, replyFinishes (replies n) = false) :
    ∀ fuel st,
      (run_loop_aux cfg replies fuel st).1 = maxTurnsResult (run_loop_aux cfg replies fuel st).2 ∧
      (run_loop_aux cfg replies fuel st).2.turn_count = st.turn_count + fuel ∧
      (run_loop_aux cfg replies fuel st).2.llm_calls = st.llm_calls + fuel := by
  intro fuel
  induction fuel with
  | zero => intro st; exact ⟨rfl, rfl, rfl⟩
  | succ n ih =>
    intro st
    have hr := h st.llm_calls
    unfold replyFinishes at hr
    unfold run_loop_aux
    simp only [get_agent_response_split]
    cases hsem : (gar_of (replies st.llm_calls)).semantic_error with
    | true =>
      simp only [hsem, if_true]
      refine ⟨(ih _).1, ?_, ?_⟩
      · rw [(ih _).2.1]; simp; omega
      · rw [(ih _).2.2]; simp; omega
    | false =>
      have hfin : (gar_of (replies st.llm_calls)).is_finished = false := by
        simpa [hsem] using hr
      simp only [hsem, hfin, Bool.false_eq_true, if_false]
      refine ⟨(ih _).1, ?_, ?_⟩
      · rw [(ih _).2.1]; simp; omega
      · rw [(ih _).2.2]; simp; omega


/-- A content-filtered provider reply (semantic error). -/
def filterReply : ProviderReply :=
  { finish_reason := "content_filter", content := some "x", tin := 1, tout := 2 }

/-- C6: for a fresh run (reset or no prior messages), if no model response
ever parses as `is_finished=true`, `run()` returns MAX_TURNS_REACHED, the
agent's `turn_count` and the result metadata's turn count equal `max_turns`
exactly, and the returned value carries the fixed `[MAX_TURNS]` marker. -/
theorem c6_max_turns_floor (cfg : AgentCfg) (replies : Nat → ProviderReply)
    (input : String) (reset : Bool) (st : AgentState)
    (h : ∀ n, replyFinishes (replies n) = false)
    (hfresh : reset = true ∨ st.messages = []) :
    (agent_run cfg replies input reset st).1.status = .max_turns_reached ∧
    (agent_run cfg replies input reset st).2.turn_count = cfg.max_turns ∧
    (∃ meta, (agent_run cfg replies input reset st).1.metadata = some meta ∧
      meta.turns = cfg.max_turns) ∧
    (agent_run cfg replies input reset st).1.value = some max_turns_value ∧
    ("[MAX_TURNS]".data).isPrefixOf max_turns_value.data = true := by
  have hcond : (reset || st.messages.isEmpty) = true := by
    rcases hfresh with hr | hm
    · simp [hr]
    · simp [hm]
  unfold agent_run
  simp only [hcond, if_true]
  obtain ⟨h1, h2, h3⟩ := run_loop_aux_no_finish cfg replies h (cfg.max_turns - 0) _
  refine ⟨?_, ?_, ?_, ?_, ?_⟩
  · rw [h1]; rfl
  · rw [h2]; simp
  · rw [h1]
    exact ⟨_, rfl, by rw [h2]; simp⟩
  · rw [h1]; rfl
  · rfl

/-- C6 witness: a concrete fresh run whose model never finishes. -/
theorem c6_max_turns_floor_witness :
    (replyFinishes (mkReply contJson) = false ∧ (true = true ∨ freshState.messages = [])) ∧
    ((agent_run { cfg0 with max_turns := 2 } (fun _ => mkReply contJson) "task" true freshState).1.status = .max_turns_reached ∧
      (agent_run { cfg0 with max_turns := 2 } (fun _ => mkReply contJson) "task" true freshState).2.turn_count = 2 ∧
      (∃ meta, (agent_run { cfg0 with max_turns := 2 } (fun _ => mkReply contJson) "task" true freshState).1.metadata = some meta ∧
        meta.turns = 2) ∧
      (agent_run { cfg0 with max_turns := 2 } (fun _ => mkReply contJson) "task" true freshState).1.value = some max_turns_value ∧
      ("[MAX_TURNS]".data).isPrefixOf max_turns_value.data = true) :=
  ⟨⟨rfl, Or.inl rfl⟩,
    c6_max_turns_floor { cfg0 with max_turns := 2 } (fun _ => mkReply contJson) "task" true
      freshState (fun _ => rfl) (Or.inl rfl)⟩

/-- C10: when every provider reply yields a semantic error, each iteration
still increments the turn counter and makes one model call before the error
is detected, so a fresh run makes exactly `max_turns` model calls and
returns MAX_TURNS_REACHED. -/
theorem c10_semantic_errors_consume_budget (cfg : AgentCfg) (replies : Nat → ProviderReply)
    (input : String) (reset : Bool) (st : AgentState)
    (h : ∀ n, replySemantic (replies n) = true)
    (hfresh : reset = true ∨ st.messages = []) :
    (agent_run cfg replies input reset st).2.llm_calls = st.llm_calls + cfg.max_turns ∧
    (agent_run cfg replies input reset st).2.turn_count = cfg.max_turns ∧
    (agent_run cfg replies input reset st).1.status = .max_turns_reached := by
  have hnf : ∀ n, replyFinishes (replies n) = false := by
    intro n
    have := h n
    unfold replySemantic at this
    unfold replyFinishes
    simp [this]
  have hcond : (reset || st.messages.isEmpty) = true := by
    rcases hfresh with hr | hm
    · simp [hr]
    · simp [hm]
  unfold agent_run
  simp only [hcond, if_true]
  obtain ⟨h1, h2, h3⟩ := run_loop_aux_no_finish cfg replies hnf (cfg.max_turns - 0) _
  refine ⟨?_, ?_, ?_⟩
  · rw [h3]; simp
  · rw [h2]; simp
  · rw [h1]; rfl

/-- C10 witness: two content-filtered turns exhaust a two-turn budget. -/
theorem c10_semantic_errors_consume_budget_witness :
    (replySemantic filterReply = true ∧ (true = true ∨ freshState.messages = [])) ∧
    ((agent_run { cfg0 with max_turns := 2 } (fun _ => filterReply) "task" true freshState).2.llm_calls = freshState.llm_calls + 2 ∧
      (agent_run { cfg0 with max_turns := 2 } (fun _ => filterReply) "task" true freshState).2.turn_count = 2 ∧
      (agent_run { cfg0 with max_turns := 2 } (fun _ => filterReply) "task" true freshState).1.status = .max_turns_reached) :=
  ⟨⟨rfl, Or.inl rfl⟩,
    c10_semantic_errors_consume_budget { cfg0 with max_turns := 2 } (fun _ => filterReply)
      "task" true freshState (fun _ => rfl) (Or.inl rfl)⟩

/-- C1 (code bug): on a successfully parsed model response the loop appends
the assistant message with `content = ""` — the success branch of
`_get_agent_response` stores the vestigial local `response_content`
(initialised to `""`, never reassigned) under `"raw_response"`, and
`_run_loop` uses that as the message content.  The normalized model text of
the failing input is `finJson` itself (the cleaner passes it through), the
response parses with tool calls and metadata as claimed, yet the appended
content is empty rather than the model text. -/
theorem c1_assistant_content_is_empty :
    clean_markdown_response finJson = .ok finJson ∧
    parseAgentResponse finJson = some ⟨"r", none, some "done", true⟩ ∧
    ((agent_run cfg0 (fun _ => mkReply finJson) "task" true freshState).2.messages.map
      (fun m => m.content)) = ["sys", "task", ""] ∧
    finJson ≠ "" :=
  ⟨rfl, rfl, rfl, by decide⟩

/-- C4 (code bug): a parsed response with `is_finished=true` and a null
`result` makes `run()` return a SUCCESS Result whose `value` is `None`, not
the claimed empty string — `metadata.get("result", "")` never applies its
default because the key is always present.  The metadata (turn count) is
still attached as claimed. -/
theorem c4_null_result_value_is_none :
    parseAgentResponse nullFinJson = some ⟨"r", none, none, true⟩ ∧
    (agent_run cfg0 (fun _ => mkReply nullFinJson) "task" true freshState).1.status = .success ∧
    (agent_run cfg0 (fun _ => mkReply nullFinJson) "task" true freshState).1.value = none ∧
    (∃ meta, (agent_run cfg0 (fun _ => mkReply nullFinJson) "task" true freshState).1.metadata =
      some meta ∧ meta.turns = 1 ∧ meta.tokens = 3) :=
  ⟨rfl, rfl, rfl, ⟨_, rfl, rfl, rfl⟩⟩

/-- C5 counterexample: a `<function_calls>` block whose bracketed content is
not valid JSON makes the normalizer raise (`json.loads` inside
`_convert_anthropic_format` is unguarded), contradicting "never raises". -/
theorem c5_normalizer_raises_on_bad_block :
    clean_markdown_response "<function_calls>[oops]</function_calls>" = .error () := rfl

/-- C5 (amended): the normalizer returns a string for every input except
when a `<function_calls>` block matches and its captured array is not valid
JSON; only that one path raises. -/
theorem c5_normalizer_total_otherwise (s : String)
    (h : anthropicMatch (s.length + 1) s.data 0 = none ∨
      ∃ pr, anthropicMatch (s.length + 1) s.data 0 = some pr ∧
        (json_loads (String.mk pr.2)).isSome) :
    ∃ out, clean_markdown_response s = .ok out := by
  unfold clean_markdown_response
  by_cases h1 : convert_xml_tool_call_format s ≠ s
  · simp only [if_pos h1]; exact ⟨_, rfl⟩
  · simp only [if_neg h1]
    have hanth : ∃ c2, convert_anthropic_format s = .ok c2 := by
      unfold convert_anthropic_format
      rcases h with hn | ⟨pr, hpr, hsome⟩
      · rw [hn]; exact ⟨_, rfl⟩
      · obtain ⟨a, b⟩ := pr
        rw [hpr]
        obtain ⟨v, hv⟩ := Option.isSome_iff_exists.mp hsome
        simp only at hv ⊢
        rw [hv]
        exact ⟨_, rfl⟩
    obtain ⟨c2, hc2⟩ := hanth
    rw [hc2]
    by_cases h2 : c2 ≠ s
    · simp only [if_pos h2]; exact ⟨_, rfl⟩
    · simp only [if_neg h2]; exact ⟨_, rfl⟩

/-- C5 witness for the amended totality statement. -/
theorem c5_normalizer_total_otherwise_witness :
    (anthropicMatch ("plain text".length + 1) "plain text".data 0 = none) ∧
    ∃ out, clean_markdown_response "plain text" = .ok out :=
  ⟨rfl, c5_normalizer_total_otherwise "plain text" (Or.inl rfl)⟩

/-! ### Checkpoint round-trip lemmas -/

theorem parseToolCallJ_toJson (tc : ToolCall) :
    parseToolCallJ (ToolCall.toJson tc) = some tc := rfl

theorem mapM_loop_parseToolCallJ (tcs : List ToolCall) (acc : List ToolCall) :
    List.mapM.loop parseToolCallJ (tcs.map ToolCall.toJson) acc = some (acc.reverse ++ tcs) := by
  induction tcs generalizing acc with
  | nil => simp [List.mapM.loop]
  | cons tc rest ih =>
    simp [List.mapM.loop, parseToolCallJ_toJson, ih]

theorem mapM_parseToolCallJ_toJson (tcs : List ToolCall) :
    (tcs.map ToolCall.toJson).mapM parseToolCallJ = some tcs := by
  simpa using mapM_loop_parseToolCallJ tcs []

theorem roleOfStr_toStr (r : Role) : roleOfStr r.toStr = some r := by
  cases r <;> rfl

theorem errorCodeOfStr_value (c : ErrorCode) : errorCodeOfStr c.value = some c := by
  cases c <;> rfl

set_option maxHeartbeats 1600000 in
/-- Pydantic validation inverts `model_dump(mode="json")` on every message. -/
theorem message_fromJson_toJson (m : Message) :
    Message.fromJson (Message.toJson m) = some m := by
  obtain ⟨role, content, ts, ec, tcs, md, tcid, nm, tin, tout⟩ := m
  cases ec <;> cases tcs <;> cases md <;> cases tcid <;> cases nm <;> cases tin <;> cases tout <;>
    simp [Message.toJson, Message.fromJson, alistLookup, roleOfStr_toStr, errorCodeOfStr_value,
      mapM_loop_parseToolCallJ, parseOptStrField, parseOptIntField, optStrJ, optIntJ]

theorem mapM_loop_message_fromJson (msgs : List Message) (acc : List Message) :
    List.mapM.loop Message.fromJson (msgs.map Message.toJson) acc = some (acc.reverse ++ msgs) := by
  induction msgs generalizing acc with
  | nil => simp [List.mapM.loop]
  | cons m rest ih =>
    simp [List.mapM.loop, message_fromJson_toJson, ih]

theorem mapM_message_fromJson_toJson (msgs : List Message) :
    (msgs.map Message.toJson).mapM Message.fromJson = some msgs := by
  simpa using mapM_loop_message_fromJson msgs []

/-- C8: saving a checkpoint and loading it back restores the message
sequence field-by-field together with `turn_count` and `tokens_used`. -/
theorem c8_checkpoint_roundtrip (msgs : List Message) (turn_count tokens_used : Nat) :
    load_checkpoint (save_checkpoint msgs turn_count tokens_used) =
      some (msgs, turn_count, tokens_used) := by
  unfold save_checkpoint load_checkpoint
  simp [alistLookup, mapM_loop_message_fromJson]

/-! ### Tool pairing invariant (C2) -/

/-- The ToolCall ids carried by one assistant message. -/
def callIdsOfMsg (m : Message) : List String :=
  if m.role = .assistant then
    match m.tool_calls with
    | some tcs => tcs.map (fun tc => tc.id)
    | none => []
  else []

def allCallIds (msgs : List Message) : List String :=
  (msgs.map callIdsOfMsg).flatten

/-- How many assistant ToolCalls in `msgs` carry id `d`. -/
def callCount (msgs : List Message) (d : String) : Nat :=
  ((allCallIds msgs).filter (fun x => x = d)).length

/-- How many tool-result messages in `msgs` answer id `d`. -/
def answeredCount (msgs : List Message) (d : String) : Nat :=
  (msgs.filter (fun m => m.role = .tool && m.tool_call_id = some d)).length

/-- The spec's tool pairing invariant: every tool-result message has exactly
one earlier assistant ToolCall with its id, and no id is answered by more
than one tool-result message over the whole trajectory. -/
def toolPairingOK (msgs : List Message) : Bool :=
  ((List.range msgs.length).all (fun i =>
    match msgs.get? i with
    | some m =>
      if m.role = .tool then
        match m.tool_call_id with
        | some d => callCount (msgs.take i) d == 1
        | none => true
      else true
    | none => true)) &&
  ((allCallIds msgs).all (fun d => answeredCount msgs d ≤ 1))

theorem allCallIds_append (a b : List Message) :
    allCallIds (a ++ b) = allCallIds a ++ allCallIds b := by
  simp [allCallIds]

theorem callCount_append (a b : List Message) (d : String) :
    callCount (a ++ b) d = callCount a d + callCount b d := by
  simp [callCount, allCallIds_append, List.filter_append]

theorem answeredCount_append (a b : List Message) (d : String) :
    answeredCount (a ++ b) d = answeredCount a d + answeredCount b d := by
  simp [answeredCount, List.filter_append]

/-- `J msgs`: every tool-result message is preceded by at least one matching
assistant ToolCall. -/
def PairedBefore (msgs : List Message) : Prop :=
  ∀ i m d, msgs.get? i = some m → m.role = .tool → m.tool_call_id = some d →
    1 ≤ callCount (msgs.take i) d

/-- `K msgs`: ids are never answered more often than they are called. -/
def AnsweredLeCalls (msgs : List Message) : Prop :=
  ∀ d, answeredCount msgs d ≤ callCount msgs d

theorem pairedBefore_append_nontool (msgs batch : List Message)
    (hJ : PairedBefore msgs) (hb : ∀ m ∈ batch, m.role ≠ .tool) :
    PairedBefore (msgs ++ batch) := by
  intro i m d hget hrole hid
  by_cases hi : i < msgs.length
  · rw [List.take_append_of_le_length (Nat.le_of_lt hi)]
    exact hJ i m d (by rw [List.get?_append hi] at hget; exact hget) hrole hid
  · exfalso
    have : m ∈ batch := by
      have hlt : i < msgs.length + batch.length := by
        have := List.get?_eq_some.mp hget
        simpa using this.1
      have := List.get?_append_right (Nat.le_of_not_lt hi) ▸ hget
      exact List.get?_mem this
    exact hb m this hrole

theorem answeredLeCalls_append_nontool (msgs batch : List Message)
    (hK : AnsweredLeCalls msgs) (hb : ∀ m ∈ batch, m.role ≠ .tool) :
    AnsweredLeCalls (msgs ++ batch) := by
  intro d
  rw [answeredCount_append, callCount_append]
  have hzero : answeredCount batch d = 0 := by
    simp only [answeredCount, List.length_eq_zero]
    rw [List.filter_eq_nil]
    intro m hm
    simp only [Bool.and_eq_true, decide_eq_true_eq, not_and]
    intro hrole
    exact absurd hrole (hb m hm)
  rw [hzero]
  exact Nat.le_trans (by simpa using hK d) (Nat.le_add_right _ _)

/-- `_execute_tools` appends exactly one tool message per call, in order. -/
theorem execute_tools_messages (tools : List ToolM) (tcs : List ToolCall) (msgs : List Message) :
    (execute_tools tools tcs msgs).1 =
      msgs ++ tcs.map (fun tc => toolMessageOf (execute_single_tool tools tc)) := by
  induction tcs generalizing msgs with
  | nil => simp [execute_tools]
  | cons tc rest ih =>
    simp [execute_tools, ih]

/-- The batch of tool messages produced for a call list. -/
def toolBatch (tools : List ToolM) (tcs : List ToolCall) : List Message :=
  tcs.map (fun tc => toolMessageOf (execute_single_tool tools tc))

theorem execute_single_tool_id (tools : List ToolM) (tc : ToolCall) :
    (execute_single_tool tools tc).tool_call_id = tc.id := by
  unfold execute_single_tool
  cases find_tool tools tc.tool <;> rfl

theorem toolBatch_roles (tools : List ToolM) (tcs : List ToolCall) :
    ∀ m ∈ toolBatch tools tcs, m.role = .tool ∧ ∃ tc ∈ tcs, m.tool_call_id = some tc.id := by
  intro m hm
  simp only [toolBatch, List.mem_map] at hm
  obtain ⟨tc, htc, rfl⟩ := hm
  exact ⟨rfl, tc, htc, by simp [toolMessageOf, execute_single_tool_id]⟩

theorem callCount_toolBatch (tools : List ToolM) (tcs : List ToolCall) (d : String) :
    callCount (toolBatch tools tcs) d = 0 := by
  simp only [callCount, List.length_eq_zero, allCallIds]
  rw [List.filter_eq_nil]
  intro x hx
  simp only [List.mem_flatten, List.mem_map] at hx
  obtain ⟨l, ⟨m, hm, rfl⟩, hxl⟩ := hx
  obtain ⟨hrole, -⟩ := toolBatch_roles tools tcs m hm
  simp [callIdsOfMsg, hrole] at hxl

theorem answeredCount_toolBatch (tools : List ToolM) (tcs : List ToolCall) (d : String) :
    answeredCount (toolBatch tools tcs) d = (tcs.filter (fun tc => tc.id = d)).length := by
  induction tcs with
  | nil => rfl
  | cons tc rest ih =>
    simp only [toolBatch, List.map_cons, answeredCount, List.filter_cons,
      toolMessageOf, execute_single_tool_id] at ih ⊢
    by_cases h : tc.id = d
    · simp [h, ih]
    · simp [h, ih]

/-- The ids of one assistant message built from a parsed response. -/
theorem callIdsOfMsg_assistant (gar : GarMeta) :
    callIdsOfMsg (assistantMessageOf gar) =
      (match gar.tool_calls with
        | some tcs => tcs.map (fun tc => tc.id)
        | none => []) := by
  simp [callIdsOfMsg, assistantMessageOf]

theorem callCount_assistant (gar : GarMeta) (tcs : List ToolCall) (d : String)
    (hgar : gar.tool_calls = some tcs) :
    callCount [assistantMessageOf gar] d = (tcs.filter (fun tc => tc.id = d)).length := by
  simp [callCount, allCallIds, callIdsOfMsg_assistant, hgar]
  rw [← List.countP_eq_length_filter, ← List.countP_eq_length_filter, List.countP_map]
  rfl

theorem invariant_step_tools (msgs : List Message) (gar : GarMeta) (tools : List ToolM)
    (tcs : List ToolCall) (hgar : gar.tool_calls = some tcs)
    (hJ : PairedBefore msgs) (hK : AnsweredLeCalls msgs) :
    PairedBefore ((msgs ++ [assistantMessageOf gar]) ++ toolBatch tools tcs) ∧
    AnsweredLeCalls ((msgs ++ [assistantMessageOf gar]) ++ toolBatch tools tcs) := by
  have hJ1 : PairedBefore (msgs ++ [assistantMessageOf gar]) :=
    pairedBefore_append_nontool msgs _ hJ (by
      intro m hm
      simp only [List.mem_singleton] at hm
      subst hm
      simp [assistantMessageOf])
  constructor
  · intro i m d hget hrole hid
    by_cases hi : i < (msgs ++ [assistantMessageOf gar]).length
    · rw [List.take_append_of_le_length (Nat.le_of_lt hi)]
      exact hJ1 i m d (by rw [List.get?_append hi] at hget; exact hget) hrole hid
    · have hmem : m ∈ toolBatch tools tcs := by
        have := List.get?_append_right (Nat.le_of_not_lt hi) ▸ hget
        exact List.get?_mem this
      obtain ⟨-, tc, htc, hidm⟩ := toolBatch_roles tools tcs m hmem
      have hd : tc.id = d := by
        rw [hid] at hidm
        exact (Option.some_injective _ hidm.symm)
      rw [List.take_append_eq_append_take]
      rw [callCount_append]
      have h1 : (msgs ++ [assistantMessageOf gar]).take i = msgs ++ [assistantMessageOf gar] := by
        exact List.take_of_length_le (Nat.le_of_not_lt hi)
      rw [h1, callCount_append, callCount_assistant gar tcs d hgar]
      have htcf : tc ∈ tcs.filter (fun tc => tc.id = d) :=
        List.mem_filter.mpr ⟨htc, by simp [hd]⟩
      have : 0 < (tcs.filter (fun tc => tc.id = d)).length :=
        List.length_pos.mpr (List.ne_nil_of_mem htcf)
      omega
  · intro d
    rw [answeredCount_append, callCount_append, answeredCount_append, callCount_append,
      answeredCount_toolBatch, callCount_toolBatch, callCount_assistant gar tcs d hgar]
    have hanonassist : answeredCount [assistantMessageOf gar] d = 0 := by
      simp [answeredCount, assistantMessageOf]
    rw [hanonassist]
    have := hK d
    omega

theorem run_loop_aux_pairing (cfg : AgentCfg) (replies : Nat → ProviderReply) :
    ∀ fuel st, PairedBefore st.messages → AnsweredLeCalls st.messages →
      PairedBefore (run_loop_aux cfg replies fuel st).2.messages ∧
      AnsweredLeCalls (run_loop_aux cfg replies fuel st).2.messages := by
  intro fuel
  induction fuel with
  | zero => intro st hJ hK; exact ⟨hJ, hK⟩
  | succ n ih =>
    intro st hJ hK
    unfold run_loop_aux
    simp only [get_agent_response_split]
    cases hsem : (gar_of (replies st.llm_calls)).semantic_error with
    | true =>
      simp only [hsem, if_true]
      refine ih _ ?_ ?_
      · exact pairedBefore_append_nontool _ _ hJ (by
          intro m hm
          simp only [List.mem_singleton] at hm
          subst hm
          simp [semanticErrorMessage])
      · exact answeredLeCalls_append_nontool _ _ hK (by
          intro m hm
          simp only [List.mem_singleton] at hm
          subst hm
          simp [semanticErrorMessage])
    | false =>
      simp only [hsem, Bool.false_eq_true, if_false]
      have hstep : ∀ msgs2,
          (msgs2 = st.messages ++ [assistantMessageOf (gar_of (replies st.llm_calls))] ∨
            ∃ tcs, (gar_of (replies st.llm_calls)).tool_calls = some tcs ∧
              msgs2 = (st.messages ++ [assistantMessageOf (gar_of (replies st.llm_calls))]) ++
                toolBatch cfg.tools tcs) →
          PairedBefore msgs2 ∧ AnsweredLeCalls msgs2 := by
        intro msgs2 hc
        rcases hc with rfl | ⟨tcs, htcs, rfl⟩
        · constructor
          · exact pairedBefore_append_nontool _ _ hJ (by
              intro m hm
              simp only [List.mem_singleton] at hm
              subst hm
              simp [assistantMessageOf])
          · exact answeredLeCalls_append_nontool _ _ hK (by
              intro m hm
              simp only [List.mem_singleton] at hm
              subst hm
              simp [assistantMessageOf])
        · exact invariant_step_tools _ _ _ _ htcs hJ hK
      cases htc : (gar_of (replies st.llm_calls)).tool_calls with
      | none =>
        obtain ⟨hJ2, hK2⟩ := hstep _ (Or.inl rfl)
        cases hfin : (gar_of (replies st.llm_calls)).is_finished with
        | true => simp only [hfin, if_true]; exact ⟨hJ2, hK2⟩
        | false => simp only [hfin, Bool.false_eq_true, if_false]; exact ih _ hJ2 hK2
      | some tcs =>
        cases hemp : tcs.isEmpty with
        | true =>
          simp only [hemp, if_true]
          obtain ⟨hJ2, hK2⟩ := hstep _ (Or.inl rfl)
          cases hfin : (gar_of (replies st.llm_calls)).is_finished with
          | true => simp only [hfin, if_true]; exact ⟨hJ2, hK2⟩
          | false => simp only [hfin, Bool.false_eq_true, if_false]; exact ih _ hJ2 hK2
        | false =>
          simp only [hemp, Bool.false_eq_true, if_false]
          rw [execute_tools_messages]
          obtain ⟨hJ2, hK2⟩ := hstep _ (Or.inr ⟨tcs, htc, rfl⟩)
          cases hfin : (gar_of (replies st.llm_calls)).is_finished with
          | true => simp only [hfin, if_true]; exact ⟨hJ2, hK2⟩
          | false => simp only [hfin, Bool.false_eq_true, if_false]; exact ih _ hJ2 hK2

theorem toolPairingOK_of (msgs : List Message) (hJ : PairedBefore msgs)
    (hK : AnsweredLeCalls msgs) (hnd : (allCallIds msgs).Nodup) :
    toolPairingOK msgs = true := by
  have hle1 : ∀ d, callCount msgs d ≤ 1 := by
    intro d
    have hcnt := List.nodup_iff_count_le_one.mp hnd d
    rw [List.count_eq_countP] at hcnt
    unfold callCount
    rw [← List.countP_eq_length_filter]
    have hfun : (fun x : String => decide (x = d)) = (fun x => x == d) := by
      funext x
      by_cases h : x = d <;> simp [h]
    rw [hfun]
    exact hcnt
  unfold toolPairingOK
  rw [Bool.and_eq_true]
  constructor
  · rw [List.all_eq_true]
    intro i hi
    cases hget : msgs.get? i with
    | none => simp
    | some m =>
      simp only [hget]
      by_cases hrole : m.role = .tool
      · rw [if_pos hrole]
        cases hid : m.tool_call_id with
        | none => simp
        | some d =>
          simp only
          have h1 := hJ i m d hget hrole hid
          have h2 : callCount (msgs.take i) d ≤ callCount msgs d := by
            conv_rhs => rw [← List.take_append_drop i msgs]
            rw [callCount_append]
            omega
          have h3 := hle1 d
          have h4 : callCount (msgs.take i) d = 1 := by omega
          simp [h4]
      · rw [if_neg hrole]
  · rw [List.all_eq_true]
    intro d hd
    have := Nat.le_trans (hK d) (hle1 d)
    simpa using this

theorem pairedBefore_of_no_tool (l : List Message) (h : ∀ m ∈ l, m.role ≠ .tool) :
    PairedBefore l := by
  intro i m d hget hrole hid
  exact absurd hrole (h m (List.get?_mem hget))

theorem answeredLeCalls_of_no_tool (l : List Message) (h : ∀ m ∈ l, m.role ≠ .tool) :
    AnsweredLeCalls l := by
  intro d
  have hz : answeredCount l d = 0 := by
    simp only [answeredCount, List.length_eq_zero]
    rw [List.filter_eq_nil]
    intro m hm
    simp only [Bool.and_eq_true, decide_eq_true_eq, not_and]
    intro hrole
    exact absurd hrole (h m hm)
  omega

/-- The system+user prelude a fresh run starts with. -/
def initialMessages (cfg : AgentCfg) (input : String) : List Message :=
  [{ role := .system, content := cfg.system_prompt_rendered, timestamp := 0 }] ++
    [{ role := .user, content := input, timestamp := 0 }]

/-- C2 counterexample: a run in which two consecutive turns carry verbose-XML
tool calls.  The converter synthesizes `call_1` afresh in each response, so
the second tool-result message matches two earlier assistant ToolCalls and
the id `call_1` is answered by two tool-result messages: the pairing
invariant as claimed is false on this trajectory. -/
theorem c2_pairing_counterexample :
    toolPairingOK ((agent_run { cfg0 with max_turns := 2 } (fun _ => mkReply xmlReply)
      "task" true freshState).2.messages) = false ∧
    callCount ((agent_run { cfg0 with max_turns := 2 } (fun _ => mkReply xmlReply)
      "task" true freshState).2.messages) "call_1" = 2 ∧
    answeredCount ((agent_run { cfg0 with max_turns := 2 } (fun _ => mkReply xmlReply)
      "task" true freshState).2.messages) "call_1" = 2 :=
  ⟨rfl, rfl, rfl⟩

/-- C2 (amended): in every fresh run whose trajectory carries pairwise
distinct assistant ToolCall ids (as model-chosen ids must be; XML-synthesized
ids repeated across turns violate this), every tool-result message answers
exactly one earlier assistant ToolCall and no id is answered twice. -/
theorem c2_pairing_with_unique_ids (cfg : AgentCfg) (replies : Nat → ProviderReply)
    (input : String) (reset : Bool) (st : AgentState)
    (hfresh : reset = true ∨ st.messages = [])
    (hnodup : (allCallIds (agent_run cfg replies input reset st).2.messages).Nodup) :
    toolPairingOK ((agent_run cfg replies input reset st).2.messages) = true := by
  have hcond : (reset || st.messages.isEmpty) = true := by
    rcases hfresh with hr | hm
    · simp [hr]
    · simp [hm]
  unfold agent_run at hnodup ⊢
  simp only [hcond, if_true] at hnodup ⊢
  have hnotool : ∀ m ∈ initialMessages cfg input, m.role ≠ Role.tool := by
    intro m hm
    simp only [initialMessages, List.cons_append, List.nil_append, List.mem_cons,
      List.not_mem_nil, or_false] at hm
    rcases hm with rfl | rfl <;> simp
  obtain ⟨hJ, hK⟩ := run_loop_aux_pairing cfg replies (cfg.max_turns - 0) { messages := initialMessages cfg input, turn_count := 0, tokens_used := 0, llm_calls := st.llm_calls } (pairedBefore_of_no_tool _ hnotool) (answeredLeCalls_of_no_tool _ hnotool)
  exact toolPairingOK_of _ hJ hK hnodup

/-- Replies for the C2 witness: one XML tool-calling turn, then a finish. -/
def mixedReplies : Nat → ProviderReply :=
  fun n => if n = 0 then mkReply xmlReply else mkReply finJson

/-- C2 witness: a run with a single XML turn has distinct ids and satisfies
the pairing invariant. -/
theorem c2_pairing_with_unique_ids_witness :
    (allCallIds (agent_run { cfg0 with max_turns := 2 } mixedReplies "task" true
      freshState).2.messages).Nodup ∧
    toolPairingOK ((agent_run { cfg0 with max_turns := 2 } mixedReplies "task" true
      freshState).2.messages) = true :=
  ⟨by decide, c2_pairing_with_unique_ids { cfg0 with max_turns := 2 } mixedReplies "task" true
    freshState (Or.inl rfl) (by decide)⟩

/-! ### Batched grounding characterization (C3) -/

theorem mem_calcEntries (valid : List Int) (tc : TCRecord) (u : InvalidUse) :
    u ∈ calcEntriesOfTC valid tc ↔
      tc.tool = "calculator" ∧ u.turn = tc.turn_index ∧
      (∃ kv ∈ tc.args, kv.1 = u.arg ∧ intOfJValue kv.2 = some u.value) ∧
      u.value ∉ valid := by
  unfold calcEntriesOfTC
  by_cases h : tc.tool = "calculator"
  · rw [if_pos h]
    rw [List.mem_filterMap]
    constructor
    · rintro ⟨kv, hkv, heq⟩
      cases hiv : intOfJValue kv.2 with
      | none => rw [hiv] at heq; cases heq
      | some v =>
        rw [hiv] at heq
        by_cases hv : v ∈ valid
        · have hcontra : (none : Option InvalidUse) = some u := by simpa [hv] using heq
          cases hcontra
        · have heq' : some (InvalidUse.mk v kv.1 tc.turn_index) = some u := by
            simpa [hv] using heq
          obtain rfl : InvalidUse.mk v kv.1 tc.turn_index = u := Option.some.inj heq'
          exact ⟨h, rfl, ⟨kv, hkv, rfl, hiv⟩, hv⟩
    · rintro ⟨-, hturn, ⟨kv, hkv, harg, hiv⟩, hnot⟩
      refine ⟨kv, hkv, ?_⟩
      rw [hiv]
      show (if u.value ∈ valid then none
        else some (InvalidUse.mk u.value kv.1 tc.turn_index)) = some u
      rw [if_neg hnot]
      obtain ⟨uv, ua, ut⟩ := u
      simp only at harg hturn ⊢
      rw [harg, ← hturn]
  · rw [if_neg h]
    simp [h]

theorem mem_turnGroup (tcs : List TCRecord) (t : Nat) (tc : TCRecord) :
    tc ∈ turnGroup tcs t ↔ tc ∈ tcs ∧ tc.turn_index = t := by
  simp [turnGroup]

theorem mem_turnResultsOf (group : List TCRecord) (x : Int) :
    x ∈ turnResultsOf group ↔ ∃ tc ∈ group, resultIntOf tc = some x := by
  simp [turnResultsOf, List.mem_filterMap]

theorem mem_sortedTurnKeys (tcs : List TCRecord) (k : Nat) :
    k ∈ sortedTurnKeys tcs ↔ ∃ tc ∈ tcs, tc.turn_index = k := by
  unfold sortedTurnKeys
  rw [(List.perm_insertionSort _ _).mem_iff, List.mem_dedup, List.mem_map]

theorem sortedTurnKeys_nodup (tcs : List TCRecord) : (sortedTurnKeys tcs).Nodup := by
  unfold sortedTurnKeys
  exact (List.perm_insertionSort _ _).nodup_iff.mpr (List.nodup_dedup _)

theorem sortedTurnKeys_sorted (tcs : List TCRecord) :
    (sortedTurnKeys tcs).Sorted (· ≤ ·) := by
  unfold sortedTurnKeys
  exact List.sorted_insertionSort _ _

theorem mem_takeWhile_ne_iff (keys : List Nat) (hs : keys.Sorted (· ≤ ·))
    (hnd : keys.Nodup) (T : Nat) (hT : T ∈ keys) (k : Nat) :
    k ∈ keys.takeWhile (fun x => x ≠ T) ↔ k ∈ keys ∧ k < T := by
  induction keys with
  | nil => simp
  | cons a rest ih =>
    rw [List.sorted_cons] at hs
    rw [List.nodup_cons] at hnd
    by_cases ha : a = T
    · subst ha
      rw [List.takeWhile_cons, if_neg (by simp : ¬ (decide (a ≠ a) = true))]
      simp only [List.not_mem_nil, false_iff, not_and, List.mem_cons]
      rintro (rfl | hk)
      · omega
      · have := hs.1 k hk; omega
    · have hT' : T ∈ rest := by
        rcases List.mem_cons.mp hT with rfl | h
        · exact absurd rfl ha
        · exact h
      rw [List.takeWhile_cons, if_pos (by simp [ha] : decide (a ≠ T) = true)]
      simp only [List.mem_cons]
      rw [ih hs.2 hnd.2 hT']
      constructor
      · rintro (rfl | ⟨hk, hlt⟩)
        · exact ⟨Or.inl rfl, lt_of_le_of_ne (hs.1 T hT') ha⟩
        · exact ⟨Or.inr hk, hlt⟩
      · rintro ⟨rfl | hk, hlt⟩
        · exact Or.inl rfl
        · exact Or.inr ⟨hk, hlt⟩

theorem processTurns_mem (tcs : List TCRecord) (u : InvalidUse) :
    ∀ (keys : List Nat) (valid : List Int), keys.Nodup →
      (u ∈ processTurns tcs keys valid ↔
        u.turn ∈ keys ∧
        (∃ tc ∈ turnGroup tcs u.turn, tc.tool = "calculator" ∧
          ∃ kv ∈ tc.args, kv.1 = u.arg ∧ intOfJValue kv.2 = some u.value) ∧
        u.value ∉ valid ++
          ((keys.takeWhile (fun k => k ≠ u.turn)).map
            (fun k => turnResultsOf (turnGroup tcs k))).flatten) := by
  intro keys
  induction keys with
  | nil => intro valid _; simp [processTurns]
  | cons t rest ih =>
    intro valid hnd
    rw [List.nodup_cons] at hnd
    unfold processTurns
    rw [List.mem_append]
    have hflat : ∀ v, u ∈ (List.map (calcEntriesOfTC v) (turnGroup tcs t)).flatten ↔
        ∃ tc ∈ turnGroup tcs t, u ∈ calcEntriesOfTC v tc := by
      intro v
      simp [List.mem_flatten]
    by_cases ht : u.turn = t
    · have hrecfalse : u ∉ processTurns tcs rest (valid ++ turnResultsOf (turnGroup tcs t)) := by
        intro hmem
        have := (ih _ hnd.2).mp hmem
        exact hnd.1 (ht ▸ this.1)
      have htw : (t :: rest).takeWhile (fun x => x ≠ u.turn) = [] := by
        rw [List.takeWhile_cons, if_neg (by simp [ht] : ¬ (decide (t ≠ u.turn) = true))]
      rw [htw]
      simp only [List.map_nil, List.flatten_nil, List.append_nil]
      constructor
      · rintro (hent | hrec)
        · obtain ⟨tc, htc, hu⟩ := (hflat valid).mp hent
          obtain ⟨htool, hturn, hex, hnot⟩ := (mem_calcEntries valid tc u).mp hu
          refine ⟨by rw [ht]; exact List.mem_cons_self _ _, ⟨tc, ?_, htool, hex⟩, hnot⟩
          rw [mem_turnGroup] at htc ⊢
          exact ⟨htc.1, hturn.symm⟩
        · exact absurd hrec hrecfalse
      · rintro ⟨-, ⟨tc, htc, htool, hex⟩, hnot⟩
        left
        rw [hflat valid]
        refine ⟨tc, ?_, ?_⟩
        · rw [mem_turnGroup] at htc ⊢
          exact ⟨htc.1, by rw [htc.2, ht]⟩
        · rw [mem_calcEntries]
          have : tc.turn_index = u.turn := by
            rw [mem_turnGroup] at htc; rw [htc.2, ht]
          exact ⟨htool, this.symm, hex, hnot⟩
    · have hentfalse : ∀ v, ¬ u ∈ (List.map (calcEntriesOfTC v) (turnGroup tcs t)).flatten := by
        intro v hmem
        obtain ⟨tc, htc, hu⟩ := (hflat v).mp hmem
        obtain ⟨-, hturn, -, -⟩ := (mem_calcEntries v tc u).mp hu
        rw [mem_turnGroup] at htc
        exact ht (hturn.trans htc.2)
      have htw : (t :: rest).takeWhile (fun x => x ≠ u.turn) =
          t :: rest.takeWhile (fun x => x ≠ u.turn) := by
        rw [List.takeWhile_cons,
          if_pos (by simp only [decide_eq_true_eq]; exact fun hcl => ht hcl.symm :
            decide (t ≠ u.turn) = true)]
      rw [htw]
      constructor
      · rintro (hent | hrec)
        · exact absurd hent (hentfalse valid)
        · obtain ⟨hmem, hex, hnot⟩ := (ih _ hnd.2).mp hrec
          refine ⟨List.mem_cons_of_mem _ hmem, hex, ?_⟩
          intro hc
          apply hnot
          simp only [List.map_cons, List.flatten_cons, List.mem_append] at hc ⊢
          tauto
      · rintro ⟨hmem, hex, hnot⟩
        rcases List.mem_cons.mp hmem with rfl | hmem'
        · exact absurd rfl ht
        · right
          rw [ih _ hnd.2]
          refine ⟨hmem', hex, ?_⟩
          intro hc
          apply hnot
          simp only [List.map_cons, List.flatten_cons, List.mem_append] at hc ⊢
          tauto

theorem takeWhile_results_iff (tcs : List TCRecord) (T : Nat)
    (hT : T ∈ sortedTurnKeys tcs) (x : Int) :
    x ∈ (((sortedTurnKeys tcs).takeWhile (fun k => k ≠ T)).map
        (fun k => turnResultsOf (turnGroup tcs k))).flatten ↔
      x ∈ turnResultsOf (tcs.filter (fun tc => tc.turn_index < T)) := by
  rw [mem_turnResultsOf]
  simp only [List.mem_flatten, List.mem_map]
  constructor
  · rintro ⟨l, ⟨k, hk, rfl⟩, hx⟩
    rw [mem_takeWhile_ne_iff _ (sortedTurnKeys_sorted tcs) (sortedTurnKeys_nodup tcs) T hT] at hk
    rw [mem_turnResultsOf] at hx
    obtain ⟨tc, htc, hres⟩ := hx
    rw [mem_turnGroup] at htc
    refine ⟨tc, List.mem_filter.mpr ⟨htc.1, ?_⟩, hres⟩
    simp only [decide_eq_true_eq]
    omega
  · rintro ⟨tc, htcf, hres⟩
    rw [List.mem_filter] at htcf
    have hlt : tc.turn_index < T := by simpa using htcf.2
    refine ⟨turnResultsOf (turnGroup tcs tc.turn_index), ⟨tc.turn_index, ?_, rfl⟩, ?_⟩
    · rw [mem_takeWhile_ne_iff _ (sortedTurnKeys_sorted tcs) (sortedTurnKeys_nodup tcs) T hT]
      exact ⟨(mem_sortedTurnKeys tcs _).mpr ⟨tc, htcf.1, rfl⟩, hlt⟩
    · rw [mem_turnResultsOf]
      exact ⟨tc, (mem_turnGroup _ _ _).mpr ⟨htcf.1, rfl⟩, hres⟩

/-- C3: the batched grounding check flags a numeric calculator argument
exactly when the value is not in the valid set at that batch's start — the
seed of true file sizes plus the parsed results of calculator calls of
strictly earlier turns.  In particular a sibling result produced in the same
turn is not yet valid (flagged), while any strictly later turn may use it
(not flagged). -/
theorem c3_same_turn_results_batched (msgs : List Message) (seed : List Int) (u : InvalidUse) :
    u ∈ check_used_only_valid_values msgs seed ↔
      (∃ tc ∈ extract_tool_calls msgs, tc.turn_index = u.turn ∧ tc.tool = "calculator" ∧
        ∃ kv ∈ tc.args, kv.1 = u.arg ∧ intOfJValue kv.2 = some u.value) ∧
      u.value ∉ seed ∧
      u.value ∉ turnResultsOf ((extract_tool_calls msgs).filter
        (fun tc => tc.turn_index < u.turn)) := by
  unfold check_used_only_valid_values
  rw [processTurns_mem (extract_tool_calls msgs) u (sortedTurnKeys (extract_tool_calls msgs))
    seed (sortedTurnKeys_nodup _)]
  constructor
  · rintro ⟨hkeys, ⟨tc, htc, htool, hex⟩, hnot⟩
    rw [mem_turnGroup] at htc
    rw [List.mem_append] at hnot
    push_neg at hnot
    refine ⟨⟨tc, htc.1, htc.2, htool, hex⟩, hnot.1, ?_⟩
    intro hc
    exact hnot.2 ((takeWhile_results_iff _ u.turn hkeys u.value).mpr hc)
  · rintro ⟨⟨tc, htc, hturn, htool, hex⟩, hseed, hres⟩
    have hkeys : u.turn ∈ sortedTurnKeys (extract_tool_calls msgs) :=
      (mem_sortedTurnKeys _ _).mpr ⟨tc, htc, hturn⟩
    refine ⟨hkeys, ⟨tc, (mem_turnGroup _ _ _).mpr ⟨htc, hturn⟩, htool, hex⟩, ?_⟩
    rw [List.mem_append]
    push_neg
    refine ⟨hseed, ?_⟩
    intro hc
    exact hres ((takeWhile_results_iff _ u.turn hkeys u.value).mp hc)

/-- A concrete trace for validator checks: turn 0 computes 1+2=3; turn 2 (the
second assistant message) uses the prior result 3 (valid) and, in a sibling
call, the same-turn result 6 (invalid). -/
def sampleTrace : List Message :=
  [{ role := .assistant, content := "", timestamp := 0,
     tool_calls := some [⟨"c1", "calculator", [("x", .int 1), ("y", .int 2)]⟩] },
   { role := .tool, content := "3", timestamp := 0, tool_call_id := some "c1",
     name := some "calculator" },
   { role := .assistant, content := "", timestamp := 0,
     tool_calls := some [⟨"c2", "calculator", [("x", .int 3), ("y", .int 3)]⟩,
                         ⟨"c3", "calculator", [("x", .int 6), ("y", .int 1)]⟩] },
   { role := .tool, content := "6", timestamp := 0, tool_call_id := some "c2",
     name := some "calculator" },
   { role := .tool, content := "7", timestamp := 0, tool_call_id := some "c3",
     name := some "calculator" }]

example : check_used_only_valid_values sampleTrace [1, 2, 3] = [⟨6, "x", 2⟩] := by rfl
example : check_used_only_valid_values sampleTrace [1] = [⟨2, "y", 0⟩, ⟨6, "x", 2⟩] := by rfl

/-! ### Streaming grounding characterization (C7) -/

theorem validate_listdir_valid_values (st : VState) (tc : ToolCall) (turn : Nat) :
    (validate_listdir_call st tc turn).1.valid_values = st.valid_values := by
  unfold validate_listdir_call
  dsimp only
  split <;> rfl

theorem validate_calculator_valid_values (st : VState) (tc : ToolCall) (turn : Nat) :
    (validate_calculator_call st tc turn).1.valid_values = st.valid_values := by
  unfold validate_calculator_call
  dsimp only
  split
  · rfl
  · split <;> rfl

theorem validate_tool_call_valid_values (st : VState) (tc : ToolCall) (turn : Nat) :
    (validate_tool_call st tc turn).1.valid_values = st.valid_values := by
  unfold validate_tool_call
  by_cases h1 : tc.tool = "mocklistdirectory"
  · rw [if_pos h1, validate_listdir_valid_values]
  · rw [if_neg h1]
    by_cases h2 : tc.tool = "calculator"
    · rw [if_pos h2, validate_calculator_valid_values]
    · rw [if_neg h2]

theorem foldl_validate_valid_values (tcs : List ToolCall) (turn : Nat) :
    ∀ st : VState,
      (tcs.foldl (fun s tc => (validate_tool_call s tc turn).1) st).valid_values =
        st.valid_values := by
  induction tcs with
  | nil => intro st; rfl
  | cons tc rest ih =>
    intro st
    rw [List.foldl_cons, ih, validate_tool_call_valid_values]

theorem process_tool_result_valid_values (st : VState) (tc : ToolCall) (content : String) :
    (process_tool_result st tc content).valid_values =
      st.valid_values ++ contribOfCall tc content := by
  unfold process_tool_result contribOfCall
  by_cases h1 : tc.tool = "mocklistdirectory"
  · rw [if_pos h1, if_pos h1]; rfl
  · rw [if_neg h1, if_neg h1]
    by_cases h2 : tc.tool = "calculator"
    · rw [if_pos h2, if_pos h2]
      unfold process_calculator_result
      cases pyIntParse content <;> simp
    · rw [if_neg h2, if_neg h2]; simp

theorem foldl_process_valid_values (content : String) :
    ∀ (tcs : List ToolCall) (st : VState),
      (tcs.foldl (fun s tc => process_tool_result s tc content) st).valid_values =
        st.valid_values ++ (tcs.map (fun tc => contribOfCall tc content)).flatten := by
  intro tcs
  induction tcs with
  | nil => intro st; simp
  | cons tc rest ih =>
    intro st
    rw [List.foldl_cons, ih, process_tool_result_valid_values]
    simp

/-- `assistantStepV` never touches `valid_values`. -/
theorem assistantStepV_valid_values (st : VState) (m : Message) (turn1 : Nat) :
    (assistantStepV st m turn1).valid_values = st.valid_values := by
  unfold assistantStepV
  cases m.tool_calls with
  | none => rfl
  | some tcs =>
    dsimp only
    split
    · rfl
    · rw [foldl_validate_valid_values]

/-- `toolStepV` appends exactly the message's contributed values. -/
theorem toolStepV_valid_values (prefixRev : List Message) (st : VState) (m : Message) :
    (toolStepV prefixRev st m).valid_values =
      st.valid_values ++ valuesOfToolMsg prefixRev m := by
  unfold toolStepV valuesOfToolMsg
  cases m.tool_call_id with
  | none => simp
  | some cid =>
    dsimp only
    by_cases hcid : cid = ""
    · rw [if_pos hcid, if_pos hcid]; simp
    · rw [if_neg hcid, if_neg hcid, foldl_process_valid_values]

/-- During the chronological scan, `valid_values` is exactly the list of
values surfaced (by listing results and parsed calculator results) strictly
before the scan position. -/
theorem evalScan_valid_values :
    ∀ (rest prefixRev : List Message) (st : VState) (turn : Nat),
      (evalScan prefixRev rest st turn).valid_values =
        st.valid_values ++ surfacedValuesAux prefixRev rest := by
  intro rest
  induction rest with
  | nil => intro prefixRev st turn; simp [evalScan, surfacedValuesAux]
  | cons m rest ih =>
    intro prefixRev st turn
    rw [evalScan_cons]
    unfold surfacedValuesAux
    by_cases h1 : m.role = .assistant
    · rw [if_pos h1, if_pos h1, ih, assistantStepV_valid_values]
      simp
    · rw [if_neg h1, if_neg h1]
      by_cases h2 : m.role = .tool
      · rw [if_pos h2, if_pos h2, ih, toolStepV_valid_values]
        simp
      · rw [if_neg h2, if_neg h2, ih]
        simp

theorem assistantCount_cons (m : Message) (xs : List Message) :
    assistantCount (m :: xs) =
      assistantCount xs + (if m.role = .assistant then 1 else 0) := by
  unfold assistantCount
  by_cases h : m.role = .assistant
  · simp [List.filter_cons, h]
  · simp [List.filter_cons, h]

theorem evalScan_append :
    ∀ (xs ys prefixRev : List Message) (st : VState) (turn : Nat),
      evalScan prefixRev (xs ++ ys) st turn =
        evalScan (xs.reverse ++ prefixRev) ys (evalScan prefixRev xs st turn)
          (turn + assistantCount xs) := by
  intro xs
  induction xs with
  | nil => intro ys prefixRev st turn; simp [evalScan, assistantCount]
  | cons m xs ih =>
    intro ys prefixRev st turn
    rw [List.cons_append, evalScan_cons, evalScan_cons]
    have hrev : xs.reverse ++ (m :: prefixRev) = (m :: xs).reverse ++ prefixRev := by simp
    by_cases h1 : m.role = .assistant
    · rw [if_pos h1, if_pos h1, ih]
      have hcnt : turn + 1 + assistantCount xs = turn + assistantCount (m :: xs) := by
        rw [assistantCount_cons]; simp [h1]; omega
      rw [hrev, hcnt]
    · rw [if_neg h1, if_neg h1]
      have hcnt : turn + assistantCount xs = turn + assistantCount (m :: xs) := by
        rw [assistantCount_cons]; simp [h1]
      by_cases h2 : m.role = .tool
      · rw [if_pos h2, if_pos h2, ih, hrev, hcnt]
      · rw [if_neg h2, if_neg h2, ih, hrev, hcnt]

theorem validate_tool_call_violations (st : VState) (tc : ToolCall) (turn : Nat) :
    ∃ l, (validate_tool_call st tc turn).1.violations = st.violations ++ l := by
  unfold validate_tool_call validate_listdir_call validate_calculator_call
  dsimp only
  by_cases h1 : tc.tool = "mocklistdirectory"
  · rw [if_pos h1]
    split
    · exact ⟨[], by simp⟩
    · exact ⟨[], by simp⟩
  · rw [if_neg h1]
    by_cases h2 : tc.tool = "calculator"
    · rw [if_pos h2]
      split
      · exact ⟨_, rfl⟩
      · split
        · exact ⟨_, rfl⟩
        · exact ⟨[], by simp⟩
    · rw [if_neg h2]
      exact ⟨_, rfl⟩

theorem foldl_validate_violations (turn : Nat) :
    ∀ (tcs : List ToolCall) (st : VState),
      ∃ l, (tcs.foldl (fun s tc => (validate_tool_call s tc turn).1) st).violations =
        st.violations ++ l := by
  intro tcs
  induction tcs with
  | nil => intro st; exact ⟨[], by simp⟩
  | cons tc rest ih =>
    intro st
    rw [List.foldl_cons]
    obtain ⟨l1, h1⟩ := validate_tool_call_violations st tc turn
    obtain ⟨l2, h2⟩ := ih ((validate_tool_call st tc turn).1)
    exact ⟨l1 ++ l2, by rw [h2, h1, List.append_assoc]⟩

theorem process_tool_result_violations (st : VState) (tc : ToolCall) (content : String) :
    (process_tool_result st tc content).violations = st.violations := by
  unfold process_tool_result process_listdir_result process_calculator_result
  by_cases h1 : tc.tool = "mocklistdirectory"
  · rw [if_pos h1]
  · rw [if_neg h1]
    by_cases h2 : tc.tool = "calculator"
    · rw [if_pos h2]
      split <;> rfl
    · rw [if_neg h2]

theorem foldl_process_violations (content : String) :
    ∀ (tcs : List ToolCall) (st : VState),
      (tcs.foldl (fun s tc => process_tool_result s tc content) st).violations =
        st.violations := by
  intro tcs
  induction tcs with
  | nil => intro st; rfl
  | cons tc rest ih =>
    intro st
    rw [List.foldl_cons, ih, process_tool_result_violations]

theorem assistantStepV_violations (st : VState) (m : Message) (turn1 : Nat) :
    ∃ l, (assistantStepV st m turn1).violations = st.violations ++ l := by
  unfold assistantStepV
  cases m.tool_calls with
  | none => exact ⟨[], by simp⟩
  | some tcs =>
    dsimp only
    split
    · exact ⟨[], by simp⟩
    · exact foldl_validate_violations turn1 tcs st

theorem toolStepV_violations (prefixRev : List Message) (st : VState) (m : Message) :
    (toolStepV prefixRev st m).violations = st.violations := by
  unfold toolStepV
  cases m.tool_call_id with
  | none => rfl
  | some cid =>
    dsimp only
    by_cases hcid : cid = ""
    · rw [if_pos hcid]
    · rw [if_neg hcid, foldl_process_violations]

theorem evalScan_violations_extend :
    ∀ (rest prefixRev : List Message) (st : VState) (turn : Nat),
      ∃ l, (evalScan prefixRev rest st turn).violations = st.violations ++ l := by
  intro rest
  induction rest with
  | nil => intro prefixRev st turn; exact ⟨[], by simp [evalScan]⟩
  | cons m rest ih =>
    intro prefixRev st turn
    rw [evalScan_cons]
    by_cases h1 : m.role = .assistant
    · rw [if_pos h1]
      obtain ⟨l1, h1'⟩ := assistantStepV_violations st m (turn + 1)
      obtain ⟨l2, h2'⟩ := ih (m :: prefixRev) (assistantStepV st m (turn + 1)) (turn + 1)
      exact ⟨l1 ++ l2, by rw [h2', h1', List.append_assoc]⟩
    · rw [if_neg h1]
      by_cases h2 : m.role = .tool
      · rw [if_pos h2]
        obtain ⟨l2, h2'⟩ := ih (m :: prefixRev) (toolStepV prefixRev st m) turn
        exact ⟨l2, by rw [h2', toolStepV_violations]⟩
      · rw [if_neg h2]
        exact ih _ _ _

theorem calcArgViolation_some (st : VState) (args : List (String × JValue)) (argName : String)
    (turn : Nat) (jv : JValue) (v : Int)
    (hx : alistLookup args argName = some jv)
    (hiv : intOfJValue jv = some v)
    (hnv : v ∉ st.valid_values) :
    calcArgViolation st args argName turn =
      some (.invalid_calculator_arg argName v turn) := by
  unfold calcArgViolation
  rw [hx]
  dsimp only
  rw [hiv]
  dsimp only
  rw [if_neg hnv]

theorem validate_calculator_records (st : VState) (tc : ToolCall) (turn : Nat)
    (jv : JValue) (v : Int)
    (hx : alistLookup tc.args "x" = some jv)
    (hiv : intOfJValue jv = some v)
    (hnv : v ∉ st.valid_values) :
    EvalViolation.invalid_calculator_arg "x" v turn ∈
      (validate_calculator_call st tc turn).1.violations := by
  unfold validate_calculator_call
  dsimp only
  have hc := calcArgViolation_some
    { st with calculator_call_count := st.calculator_call_count + 1 }
    tc.args "x" turn jv v hx hiv hnv
  rw [hc]
  dsimp only
  simp

theorem foldl_validate_records (turn : Nat) (jv : JValue) (v : Int) :
    ∀ (tcs : List ToolCall) (st : VState) (tc : ToolCall), tc ∈ tcs →
      tc.tool = "calculator" →
      alistLookup tc.args "x" = some jv →
      intOfJValue jv = some v →
      v ∉ st.valid_values →
      EvalViolation.invalid_calculator_arg "x" v turn ∈
        (tcs.foldl (fun s tc => (validate_tool_call s tc turn).1) st).violations := by
  intro tcs
  induction tcs with
  | nil => intro st tc h; cases h
  | cons tc0 rest ih =>
    intro st tc htc hcalc hx hiv hnv
    rw [List.foldl_cons]
    rcases List.mem_cons.mp htc with heq | hmem
    · subst heq
      have hrec : EvalViolation.invalid_calculator_arg "x" v turn ∈
          (validate_tool_call st tc turn).1.violations := by
        unfold validate_tool_call
        dsimp only
        have hne : ¬ (tc.tool = "mocklistdirectory") := by rw [hcalc]; decide
        rw [if_neg hne, if_pos hcalc]
        exact validate_calculator_records _ tc turn jv v hx hiv hnv
      obtain ⟨l, hl⟩ := foldl_validate_violations turn rest ((validate_tool_call st tc turn).1)
      rw [hl]
      exact List.mem_append_left _ hrec
    · exact ih ((validate_tool_call st tc0 turn).1) tc hmem hcalc hx hiv
        (by rw [validate_tool_call_valid_values]; exact hnv)

theorem assistantStepV_records (st : VState) (m : Message) (turn1 : Nat)
    (tcs : List ToolCall) (tc : ToolCall) (jv : JValue) (v : Int)
    (htcs : m.tool_calls = some tcs) (htc : tc ∈ tcs)
    (hcalc : tc.tool = "calculator")
    (hx : alistLookup tc.args "x" = some jv)
    (hiv : intOfJValue jv = some v)
    (hnv : v ∉ st.valid_values) :
    EvalViolation.invalid_calculator_arg "x" v turn1 ∈
      (assistantStepV st m turn1).violations := by
  unfold assistantStepV
  rw [htcs]
  dsimp only
  have hne : ¬ (tcs.isEmpty = true) := by
    cases tcs with
    | nil => cases htc
    | cons a b => simp
  rw [if_neg hne]
  exact foldl_validate_records turn1 jv v tcs st tc htc hcalc hx hiv hnv

theorem evalScan_violations_mono (rest prefixRev : List Message) (st : VState) (turn : Nat)
    (viol : EvalViolation) (h : viol ∈ st.violations) :
    viol ∈ (evalScan prefixRev rest st turn).violations := by
  obtain ⟨l, hl⟩ := evalScan_violations_extend rest prefixRev st turn
  rw [hl]
  exact List.mem_append_left _ h

/-- C7: the eval validator seeds `valid_values` empty; after any scan the
valid set is exactly the values surfaced strictly earlier in the trace
(listing file sizes and parsed calculator results); and a calculator call
whose numeric `x` argument was not surfaced strictly before its turn is
flagged as an invalid_calculator_arg grounding violation — in particular a
true file size used before any listing revealed it. -/
theorem c7_grounding_seeded_empty (p : String) (pre post : List Message)
    (m : Message) (tcs : List ToolCall) (tc : ToolCall) (jv : JValue) (v : Int)
    (hrole : m.role = .assistant) (htcs : m.tool_calls = some tcs) (htc : tc ∈ tcs)
    (hcalc : tc.tool = "calculator") (hx : alistLookup tc.args "x" = some jv)
    (hiv : intOfJValue jv = some v) (hnv : v ∉ surfacedValues pre) :
    (validatorInit p).valid_values = [] ∧
    (run_eval_scan (pre ++ m :: post) p).valid_values =
      surfacedValues (pre ++ m :: post) ∧
    EvalViolation.invalid_calculator_arg "x" v (assistantCount pre + 1) ∈
      (run_eval_scan (pre ++ m :: post) p).violations := by
  refine ⟨rfl, ?_, ?_⟩
  · rw [run_eval_scan, evalScan_valid_values]
    rfl
  · rw [run_eval_scan, evalScan_append]
    simp only [Nat.zero_add]
    rw [evalScan_cons, if_pos hrole]
    apply evalScan_violations_mono
    have hvv : (evalScan [] pre (validatorInit p) 0).valid_values = surfacedValues pre := by
      rw [evalScan_valid_values]; rfl
    apply assistantStepV_records _ m _ tcs tc jv v htcs htc hcalc hx hiv
    rw [hvv]
    exact hnv

def c7tc : ToolCall :=
  { id := "call_1", tool := "calculator", args := [("x", JValue.int 42), ("y", JValue.int 1)] }

def c7msg : Message :=
  { role := .assistant, content := "", timestamp := 0, tool_calls := some [c7tc] }

/-- C7 witness: a one-message trace whose single assistant calculator call
uses x = 42 before anything surfaced it is flagged at turn 1. -/
theorem c7_grounding_seeded_empty_witness :
    EvalViolation.invalid_calculator_arg "x" 42 1 ∈
      (run_eval_scan [c7msg] "project").violations := by
  have h := c7_grounding_seeded_empty "project" [] [] c7msg [c7tc] c7tc
    (JValue.int 42) 42 rfl rfl (List.mem_cons_self _ _) rfl rfl rfl
    (by simp [surfacedValues, surfacedValuesAux])
  simpa [assistantCount] using h.2.2

/-! ### C9: the code's brace scan refines the spec's description -/

theorem closesAtSt_cons_zero (c : Char) (rest : List Char) (st0 : ScanSt) :
    closesAtSt (c :: rest) st0 0 =
      (!st0.esc && !st0.inStr && (c = Char.ofNat 125) && (st0.depth - 1 = 0)) := rfl

theorem closePosFromSt_cons (c : Char) (rest : List Char) (st0 : ScanSt) :
    closePosFromSt (c :: rest) st0 =
      if closesAtSt (c :: rest) st0 0 then some 0
      else (closePosFromSt rest (scanStep st0 c)).map (· + 1) := by
  unfold closePosFromSt
  rw [List.length_cons, List.range_succ_eq_map, List.find?_cons]
  by_cases h : closesAtSt (c :: rest) st0 0 = true
  · rw [h]
    rfl
  · rw [Bool.not_eq_true] at h
    rw [h, if_neg (by simp [h])]
    rw [List.find?_map]
    rfl

theorem map_succ_shift (o : Option Nat) (pos : Nat) :
    ((o.map (· + 1)).map (pos + ·)) = o.map ((pos + 1) + ·) := by
  cases o with
  | none => rfl
  | some k => simp; omega

/-- The code's scanning loop agrees with the spec's first-closing-position
search, relative to any starting state and position offset. -/
theorem scanLoop_eq_closePos :
    ∀ (tail : List Char) (d : Int) (i e : Bool) (pos : Nat),
      scanLoop tail d i e pos =
        (closePosFromSt tail { depth := d, inStr := i, esc := e }).map (pos + ·) := by
  intro tail
  induction tail with
  | nil => intro d i e pos; simp [scanLoop, closePosFromSt]
  | cons c rest ih =>
    intro d i e pos
    rw [closePosFromSt_cons, closesAtSt_cons_zero]
    unfold scanLoop
    by_cases he : e = true
    · rw [if_pos he]
      rw [if_neg (by simp [he])]
      have hstep : scanStep ⟨d, i, e⟩ c = ⟨d, i, false⟩ := by simp [scanStep, he]
      rw [hstep, map_succ_shift]
      exact ih d i false (pos + 1)
    · rw [Bool.not_eq_true] at he
      rw [if_neg (by simp [he])]
      by_cases hbs : c = '\\'
      · rw [if_pos hbs]
        rw [if_neg (by simp [hbs])]
        have hstep : scanStep ⟨d, i, e⟩ c = ⟨d, i, true⟩ := by simp [scanStep, he, hbs]
        rw [hstep, map_succ_shift]
        exact ih d i true (pos + 1)
      · rw [if_neg hbs]
        by_cases hq : c = '"'
        · rw [if_pos hq]
          rw [if_neg (by simp [hq])]
          have hstep : scanStep ⟨d, i, e⟩ c = ⟨d, !i, false⟩ := by
            simp [scanStep, he, hbs, hq]
          rw [hstep, map_succ_shift]
          exact ih d (!i) false (pos + 1)
        · rw [if_neg hq]
          by_cases hob : (!i && decide (c = Char.ofNat 123)) = true
          · rw [if_pos hob]
            obtain ⟨hi, hc⟩ : i = false ∧ c = Char.ofNat 123 := by simpa using hob
            rw [if_neg (by simp [hc])]
            have hstep : scanStep ⟨d, i, e⟩ c = ⟨d + 1, i, false⟩ := by
              simp [scanStep, he, hbs, hq, hob]
            rw [hstep, map_succ_shift]
            exact ih (d + 1) i false (pos + 1)
          · rw [if_neg hob]
            by_cases hcb : (!i && decide (c = Char.ofNat 125)) = true
            · rw [if_pos hcb]
              obtain ⟨hi, hc⟩ : i = false ∧ c = Char.ofNat 125 := by simpa using hcb
              by_cases hd : d - 1 = 0
              · rw [if_pos hd]
                rw [if_pos (by simp [he, hi, hc, hd])]
                simp
              · rw [if_neg hd]
                rw [if_neg (by simp [he, hi, hc, hd])]
                have hstep : scanStep ⟨d, i, e⟩ c = ⟨d - 1, i, false⟩ := by
                  simp [scanStep, he, hbs, hq, hob, hcb]
                rw [hstep, map_succ_shift]
                exact ih (d - 1) i false (pos + 1)
            · rw [if_neg hcb]
              have hcond :
                  ¬ ((!e && !i && decide (c = Char.ofNat 125) && decide (d - 1 = 0)) = true) := by
                intro hcon
                simp only [Bool.and_eq_true, decide_eq_true_eq, Bool.not_eq_true'] at hcon
                exact hcb (by simp [hcon.1.1.2, hcon.1.2])
              rw [if_neg hcond]
              have hstep : scanStep ⟨d, i, e⟩ c = ⟨d, i, false⟩ := by
                simp [scanStep, he, hbs, hq, hob, hcb]
              rw [hstep, map_succ_shift]
              exact ih d i false (pos + 1)

theorem subIdxAux_single (ch : Char) :
    ∀ (s : List Char) (i : Nat),
      subIdxAux [ch] s i = (s.findIdx? (fun c => c = ch)).map (i + ·) := by
  intro s
  induction s with
  | nil => intro i; rfl
  | cons a rest ih =>
    intro i
    unfold subIdxAux
    rw [List.findIdx?_cons]
    by_cases h : a = ch
    · rw [if_pos (by simp [List.isPrefixOf, h]), if_pos (by simp [h])]
      simp
    · rw [if_neg (by simp [List.isPrefixOf, h]; intro hh; exact h hh.symm),
        if_neg (by simp [h]), ih, List.findIdx?_succ, map_succ_shift]

theorem findSub_single (ch : Char) (s : List Char) :
    findSub? [ch] s = s.findIdx? (fun c => c = ch) := by
  unfold findSub?
  rw [subIdxAux_single]
  cases s.findIdx? (fun c => c = ch) with
  | none => rfl
  | some k => simp

/-- C9: on inputs where neither XML dialect rewrites the text, no preamble
is stripped, and no fenced block is found, the response-cleaning entry
point returns exactly the spec's brace extraction: the string itself when
it has no opening brace, otherwise the substring from the first opening
brace to the first string-aware depth-zero return (or to the end of the
string when the depth never returns to zero). -/
theorem c9_brace_scan_refines (s : String)
    (hxml : convert_xml_tool_call_format s = s)
    (hanth : convert_anthropic_format s = Except.ok s)
    (hpre : strip_preambles s = s)
    (hfence : fenceFind (s.length + 1) s.data = none) :
    clean_markdown_response s = Except.ok (braceExtract s) ∧
    (s.data.findIdx? (fun c => c = Char.ofNat 123) = none →
      clean_markdown_response s = Except.ok s) := by
  have hstages : extract_json_stages s = braceExtract s := by
    unfold extract_json_stages braceExtract
    dsimp only
    rw [hpre, hfence]
    dsimp only
    rw [findSub_single]
    cases hidx : s.data.findIdx? (fun c => c = Char.ofNat 123) with
    | none => rfl
    | some start =>
      dsimp only
      rw [scanLoop_eq_closePos]
      cases hcp : closePosFromSt (s.data.drop start) ⟨0, false, false⟩ with
      | none => rfl
      | some pos => simp
  have hmain : clean_markdown_response s = Except.ok (extract_json_stages s) := by
    unfold clean_markdown_response
    dsimp only
    rw [hxml, if_neg (not_not_intro rfl), hanth]
    dsimp only
    rw [if_neg (not_not_intro rfl)]
  refine ⟨by rw [hmain, hstages], ?_⟩
  intro hnone
  rw [hmain, hstages]
  unfold braceExtract
  rw [hnone]

def c9s : String := "note \x7b\x22k\x22: \x22v\x7d\x22\x7d tail"

/-- C9 witness: a concrete string with braces inside a double-quoted
literal; the hypotheses all hold by evaluation and the extraction keeps the
quoted closing brace uncounted. -/
theorem c9_brace_scan_refines_witness :
    (convert_xml_tool_call_format c9s = c9s ∧
      convert_anthropic_format c9s = Except.ok c9s ∧
      strip_preambles c9s = c9s ∧
      fenceFind (c9s.length + 1) c9s.data = none) ∧
    clean_markdown_response c9s = Except.ok (braceExtract c9s) ∧
    braceExtract c9s = "\x7b\x22k\x22: \x22v\x7d\x22\x7d" := by
  refine ⟨⟨rfl, rfl, rfl, rfl⟩, (c9_brace_scan_refines c9s rfl rfl rfl rfl).1, rfl⟩

end Agentic
